import Mathlib

/-! Bridge of gstreamer-go: registry, delivery queues and callback dispatcher.

A shallow embedding of `gstreamer.go` / `types.go`.

* Go pointers (`*Pipeline`, `*Element`, channels) are indices into per-type heaps
  kept in `Mem`; an index that is not allocated behaves like a nil pointer
  (the access panics).
* The two package-level maps are association lists with Go's `m[k] = v`,
  `delete(m, k)` and `v, ok := m[k]`.
* `int` is the Go `int` of a 64-bit platform (two's complement), `C.int` the 32-bit one.
  An id crosses to native code as `C.int(id)`, modelled by `cInt`; the callbacks take the
  value of their `C.int` argument as an integer, so a callback for the object registered
  under `id` is a call with `cInt id`.
* Results of native (cgo) calls are parameters of the operation that makes them.
* Every operation returns the memory it leaves, the events it performed in program
  order (lock and unlock, registry writes, accesses to the `stop` flag, channel
  sends and closes, native calls, printed lines) and how it ended: it returned,
  it panicked, or it is blocked inside a channel operation.
-/

namespace Gstreamer

/-! ## Machine integers -/

/-- Go `int` on a 64-bit platform: wrap into `[-2^63, 2^63)`. -/
def goInt (x : Int) : Int :=
  (x + 9223372036854775808) % 18446744073709551616 - 9223372036854775808

/-- The conversion `C.int(x)`: wrap into `[-2^31, 2^31)`. -/
def cInt (x : Int) : Int :=
  (x + 2147483648) % 4294967296 - 2147483648

/-! ## Data model (`types.go`) -/

/-- A non-nil native pointer. -/
abbrev Handle := Nat

/-- A Go byte slice (`[]byte`). -/
abbrev Bytes := List Nat

/-- A buffered Go channel: `make(chan T, cap)`. -/
structure Chan (α : Type) where
  cap : Nat
  buf : List α
  closed : Bool
deriving DecidableEq, Repr

/-- The struct `Message` of `types.go`. -/
structure Message where
  GstMessage : Handle
deriving DecidableEq, Repr

/-- The struct `Element` of `types.go`; `out` is `none` for a nil channel. -/
structure Element where
  element : Handle
  out : Option Nat
  stop : Bool
  id : Int
deriving DecidableEq, Repr

/-- The struct `Pipeline` of `types.go`; `messages` is `none` for a nil channel. -/
structure Pipeline where
  pipeline : Handle
  messages : Option Nat
  id : Int
deriving DecidableEq, Repr

/-- The cgo calls made by the bridge. -/
inductive Native where
  | CString
  | free
  | gstreamer_create_pipeline
  | gstreamer_pipeline_but_watch (pipeline : Handle) (id : Int)
  | gstreamer_pipeline_stop (pipeline : Handle)
  | gstreamer_pipeline_unref (pipeline : Handle)
  | gstreamer_pipeline_findelement (pipeline : Handle)
  | gstreamer_element_pull_buffer (element : Handle) (id : Int)
deriving DecidableEq, Repr

/-- A delivery queue: a pipeline's `messages` channel or an element's `out` channel. -/
inductive Queue where
  | messages (c : Nat)
  | out (c : Nat)
deriving DecidableEq, Repr

/-- The lines written by `fmt.Printf`. -/
inductive Printed where
  | discardingBuffer (elementID : Int)
  | discardingMessage (pipelineId : Int)
deriving DecidableEq, Repr

/-- Observable steps of an execution, in program order. -/
inductive Ev where
  | lock
  | unlock
  | registerPipeline (id : Int) (p : Nat)
  | registerElement (id : Int) (e : Nat)
  | deletePipeline (id : Int)
  | deleteElement (id : Int)
  | readStop (e : Nat)
  | writeStop (e : Nat)
  | send (q : Queue)
  | close (q : Queue)
  | native (call : Native)
  | printf (line : Printed)
deriving DecidableEq, Repr

/-- Go run-time panics that the bridge can raise. -/
inductive Panic where
  | closeOfClosedChannel
  | sendOnClosedChannel
  | invalidMemoryAddress
deriving DecidableEq, Repr

/-- How a call ended. -/
inductive Status (α : Type) where
  | returned (v : α)
  | panicked (p : Panic)
  | blocked
deriving DecidableEq, Repr

/-- Package-level variables of `gstreamer.go` and the heaps they point into. -/
structure Mem where
  pipelines : List (Int × Nat)
  elements : List (Int × Nat)
  gstreamerIdGenerate : Int
  pipelineObjs : List Pipeline
  elementObjs : List Element
  msgChans : List (Chan Message)
  bufChans : List (Chan Bytes)
deriving DecidableEq, Repr

/-- What one call leaves behind. -/
structure Outcome (α : Type) where
  mem : Mem
  events : List Ev
  status : Status α
deriving DecidableEq, Repr

/-- The state at program start: `gstreamerIdGenerate = 10000`, both maps empty. -/
def init : Mem :=
  { pipelines := [], elements := [], gstreamerIdGenerate := 10000,
    pipelineObjs := [], elementObjs := [], msgChans := [], bufChans := [] }

/-! ## Go maps -/

/-- The lookup `v, ok := m[k]`. -/
def mapGet : List (Int × Nat) → Int → Option Nat
  | [], _ => none
  | (k', v) :: t, k => if k' = k then some v else mapGet t k

/-- The statement `delete(m, k)`. -/
def mapDelete (m : List (Int × Nat)) (k : Int) : List (Int × Nat) :=
  m.filter (fun kv => decide (kv.1 ≠ k))

/-- The statement `m[k] = v`. -/
def mapSet (m : List (Int × Nat)) (k : Int) (v : Nat) : List (Int × Nat) :=
  (k, v) :: mapDelete m k

/-- The keys of a map. -/
def mapKeys (m : List (Int × Nat)) : List Int :=
  m.map Prod.fst

/-! ## Go channels -/

/-- Result of a channel send. -/
inductive SendResult (α : Type) where
  | sent (c : Chan α)
  | panicClosed
  | wouldBlock
deriving DecidableEq, Repr

/-- The statement `c <- v`: panics on a closed channel, blocks on a full one. -/
def Chan.send {α : Type} (c : Chan α) (v : α) : SendResult α :=
  if c.closed then .panicClosed
  else if c.buf.length < c.cap then .sent { c with buf := c.buf ++ [v] }
  else .wouldBlock

/-- The statement `close(c)`: `none` is the panic on an already closed channel. -/
def Chan.close {α : Type} (c : Chan α) : Option (Chan α) :=
  if c.closed then none else some { c with closed := true }

/-- A completed receive `v, ok := <-c` that yields a queued value. -/
def Chan.recv {α : Type} (c : Chan α) : Option (α × Chan α) :=
  match c.buf with
  | [] => none
  | v :: rest => some (v, { c with buf := rest })

/-- The function `New`; `cpipeline` is the result of `gstreamer_create_pipeline`.
Returns the new pipeline pointer, or `none` for `(nil, error)`. -/
def New (cpipeline : Option Handle) (m : Mem) : Outcome (Option Nat) :=
  match cpipeline with
  | none =>
    { mem := m
      events := [.native .CString, .native .gstreamer_create_pipeline, .native .free]
      status := .returned none }
  | some h =>
    let id := goInt (m.gstreamerIdGenerate + 1)
    let p := m.pipelineObjs.length
    { mem := { m with
        gstreamerIdGenerate := id
        pipelineObjs := m.pipelineObjs ++ [{ pipeline := h, messages := none, id := id }]
        pipelines := mapSet m.pipelines id p }
      events := [.native .CString, .native .gstreamer_create_pipeline, .lock,
        .registerPipeline id p, .unlock, .native .free]
      status := .returned (some p) }

/-- The method `(*Pipeline).PullMessage`; returns the channel. -/
def Pipeline.PullMessage (p : Nat) (m : Mem) : Outcome Nat :=
  match m.pipelineObjs[p]? with
  | none => { mem := m, events := [], status := .panicked .invalidMemoryAddress }
  | some obj =>
    let c := m.msgChans.length
    { mem := { m with
        msgChans := m.msgChans ++ [{ cap := 5, buf := [], closed := false }]
        pipelineObjs := m.pipelineObjs.set p { obj with messages := some c } }
      events := [.native (.gstreamer_pipeline_but_watch obj.pipeline (cInt obj.id))]
      status := .returned c }

/-- The method `(*Pipeline).Stop`. -/
def Pipeline.Stop (p : Nat) (m : Mem) : Outcome Unit :=
  match m.pipelineObjs[p]? with
  | none => { mem := m, events := [.lock], status := .panicked .invalidMemoryAddress }
  | some obj =>
    let m1 := { m with pipelines := mapDelete m.pipelines obj.id }
    let evs := [Ev.lock, .deletePipeline obj.id, .unlock]
    let tail := [Ev.native (.gstreamer_pipeline_stop obj.pipeline),
      .native (.gstreamer_pipeline_unref obj.pipeline)]
    match obj.messages with
    | none => { mem := m1, events := evs ++ tail, status := .returned () }
    | some c =>
      match m1.msgChans[c]? with
      | none =>
        { mem := m1, events := evs ++ [.close (.messages c)],
          status := .panicked .invalidMemoryAddress }
      | some ch =>
        match ch.close with
        | none =>
          { mem := m1, events := evs ++ [.close (.messages c)],
            status := .panicked .closeOfClosedChannel }
        | some ch' =>
          { mem := { m1 with msgChans := m1.msgChans.set c ch' }
            events := evs ++ [.close (.messages c)] ++ tail
            status := .returned () }

/-- The method `(*Pipeline).FindElement`; `gelement` is the result of
`gstreamer_pipeline_findelement`. Returns the new element pointer or `none` for nil. -/
def Pipeline.FindElement (p : Nat) (gelement : Option Handle) (m : Mem) :
    Outcome (Option Nat) :=
  match m.pipelineObjs[p]? with
  | none =>
    { mem := m, events := [.native .CString, .native .free],
      status := .panicked .invalidMemoryAddress }
  | some obj =>
    match gelement with
    | none =>
      { mem := m
        events := [.native .CString, .native (.gstreamer_pipeline_findelement obj.pipeline),
          .native .free]
        status := .returned none }
    | some g =>
      let id := goInt (m.gstreamerIdGenerate + 1)
      let e := m.elementObjs.length
      { mem := { m with
          gstreamerIdGenerate := id
          elementObjs := m.elementObjs ++ [{ element := g, out := none, stop := false, id := id }]
          elements := mapSet m.elements id e }
        events := [.native .CString, .native (.gstreamer_pipeline_findelement obj.pipeline),
          .lock, .registerElement id e, .unlock, .native .free]
        status := .returned (some e) }

/-- The method `(*Element).Poll`; returns the channel. -/
def Element.Poll (e : Nat) (m : Mem) : Outcome Nat :=
  match m.elementObjs[e]? with
  | none => { mem := m, events := [], status := .panicked .invalidMemoryAddress }
  | some obj =>
    match obj.out with
    | none =>
      let c := m.bufChans.length
      { mem := { m with
          bufChans := m.bufChans ++ [{ cap := 10, buf := [], closed := false }]
          elementObjs := m.elementObjs.set e { obj with out := some c } }
        events := [.native (.gstreamer_element_pull_buffer obj.element (cInt obj.id))]
        status := .returned c }
    | some c => { mem := m, events := [], status := .returned c }

/-- The method `(*Element).Stop`. -/
def Element.Stop (e : Nat) (m : Mem) : Outcome Unit :=
  match m.elementObjs[e]? with
  | none => { mem := m, events := [.lock], status := .panicked .invalidMemoryAddress }
  | some obj =>
    let m1 := { m with elements := mapDelete m.elements obj.id }
    let evs := [Ev.lock, .deleteElement obj.id, .unlock, .readStop e]
    if obj.stop then { mem := m1, events := evs, status := .returned () }
    else
      match obj.out with
      | none => { mem := m1, events := evs, status := .returned () }
      | some c =>
        let m2 := { m1 with elementObjs := m1.elementObjs.set e { obj with stop := true } }
        match m2.bufChans[c]? with
        | none =>
          { mem := m2, events := evs ++ [.writeStop e, .close (.out c)],
            status := .panicked .invalidMemoryAddress }
        | some ch =>
          match ch.close with
          | none =>
            { mem := m2, events := evs ++ [.writeStop e, .close (.out c)],
              status := .panicked .closeOfClosedChannel }
          | some ch' =>
            { mem := { m2 with bufChans := m2.bufChans.set c ch' }
              events := evs ++ [.writeStop e, .close (.out c)]
              status := .returned () }

/-! ## Callback dispatcher (`gstreamer.go`, exported to C) -/

/-- The callback `goHandleSinkBuffer`; `buffer` is the result of
`C.GoBytes(buffer, bufferLen)` and `elementID` the value of the `C.int` argument, which
`int(elementID)` keeps. Native code calls back with the number it was given: `cInt id` for
an element registered under `id` (see `Element.Poll`). -/
def goHandleSinkBuffer (buffer : Bytes) (elementID : Int) (m : Mem) : Outcome Unit :=
  match mapGet m.elements elementID with
  | none =>
    { mem := m
      events := [.lock, .printf (.discardingBuffer elementID), .native .free, .unlock]
      status := .returned () }
  | some e =>
    match m.elementObjs[e]? with
    | none => { mem := m, events := [.lock, .unlock], status := .panicked .invalidMemoryAddress }
    | some obj =>
      match obj.out with
      | none => { mem := m, events := [.lock, .native .free, .unlock], status := .returned () }
      | some c =>
        if obj.stop then
          { mem := m, events := [.lock, .readStop e, .native .free, .unlock],
            status := .returned () }
        else
          match m.bufChans[c]? with
          | none =>
            { mem := m, events := [.lock, .readStop e, .unlock],
              status := .panicked .invalidMemoryAddress }
          | some ch =>
            match ch.send buffer with
            | .panicClosed =>
              { mem := m, events := [.lock, .readStop e, .unlock],
                status := .panicked .sendOnClosedChannel }
            | .wouldBlock => { mem := m, events := [.lock, .readStop e], status := .blocked }
            | .sent ch' =>
              { mem := { m with bufChans := m.bufChans.set c ch' }
                events := [.lock, .readStop e, .send (.out c), .native .free, .unlock]
                status := .returned () }

/-- The callback `goHandleSinkEOS`; `elementID` is the value of the `C.int` argument. -/
def goHandleSinkEOS (elementID : Int) (m : Mem) : Outcome Unit :=
  match mapGet m.elements elementID with
  | none => { mem := m, events := [.lock, .unlock], status := .returned () }
  | some e =>
    match m.elementObjs[e]? with
    | none => { mem := m, events := [.lock, .unlock], status := .panicked .invalidMemoryAddress }
    | some obj =>
      match obj.out with
      | none => { mem := m, events := [.lock, .unlock], status := .returned () }
      | some c =>
        if obj.stop then
          { mem := m, events := [.lock, .readStop e, .unlock], status := .returned () }
        else
          let m1 := { m with elementObjs := m.elementObjs.set e { obj with stop := true } }
          let evs := [Ev.lock, .readStop e, .writeStop e, .close (.out c), .unlock]
          match m1.bufChans[c]? with
          | none => { mem := m1, events := evs, status := .panicked .invalidMemoryAddress }
          | some ch =>
            match ch.close with
            | none => { mem := m1, events := evs, status := .panicked .closeOfClosedChannel }
            | some ch' =>
              { mem := { m1 with bufChans := m1.bufChans.set c ch' }
                events := evs
                status := .returned () }

/-- The callback `goHandleBusMessage`; `pipelineId` is the value of the `C.int` argument,
which `int(pipelineId)` keeps. Native code calls back with the number it was given:
`cInt id` for a pipeline registered under `id` (see `Pipeline.PullMessage`). -/
def goHandleBusMessage (message : Handle) (pipelineId : Int) (m : Mem) : Outcome Unit :=
  let msg : Message := { GstMessage := message }
  match mapGet m.pipelines pipelineId with
  | none =>
    { mem := m
      events := [.lock, .printf (.discardingMessage pipelineId), .unlock]
      status := .returned () }
  | some p =>
    match m.pipelineObjs[p]? with
    | none => { mem := m, events := [.lock, .unlock], status := .panicked .invalidMemoryAddress }
    | some obj =>
      match obj.messages with
      | none => { mem := m, events := [.lock, .unlock], status := .returned () }
      | some c =>
        match m.msgChans[c]? with
        | none =>
          { mem := m, events := [.lock, .unlock], status := .panicked .invalidMemoryAddress }
        | some ch =>
          match ch.send msg with
          | .panicClosed =>
            { mem := m, events := [.lock, .unlock], status := .panicked .sendOnClosedChannel }
          | .wouldBlock => { mem := m, events := [.lock], status := .blocked }
          | .sent ch' =>
            { mem := { m with msgChans := m.msgChans.set c ch' }
              events := [.lock, .send (.messages c), .unlock]
              status := .returned () }

/-! ## Plugin check -/

/-- The function `CheckPlugins`; `registry name` tells whether
`gst_registry_find_plugin` finds `name`. Returns the names looked up, in order, and
the error message (`none` for a nil error). -/
def CheckPlugins (registry : String → Bool) : List String → List String × Option String
  | [] => ([], none)
  | pluginstr :: rest =>
    if registry pluginstr then
      let r := CheckPlugins registry rest
      (pluginstr :: r.1, r.2)
    else
      ([pluginstr], some ("Required gstreamer plugin " ++ pluginstr ++ " not found"))

/-! ## Sequential executions -/

/-- Receive by a host reader on a channel obtained from `Poll` or `PullMessage`. -/
def hostRecv {α : Type} (chans : List (Chan α)) (c : Nat) : Option (List (Chan α)) :=
  match chans[c]? with
  | none => none
  | some ch =>
    match ch.recv with
    | some (_, ch') => some (chans.set c ch')
    | none => if ch.closed then some chans else none

/-- One call into the bridge, or one receive by a host reader. -/
inductive Op where
  | New (cpipeline : Option Handle)
  | PullMessage (p : Nat)
  | FindElement (p : Nat) (gelement : Option Handle)
  | Poll (e : Nat)
  | PipelineStop (p : Nat)
  | ElementStop (e : Nat)
  | goHandleSinkBuffer (buffer : Bytes) (elementID : Int)
  | goHandleSinkEOS (elementID : Int)
  | goHandleBusMessage (message : Handle) (pipelineId : Int)
  | recvOut (c : Nat)
  | recvMessages (c : Nat)
deriving DecidableEq, Repr

/-- Forget the returned value. -/
def Outcome.void {α : Type} (o : Outcome α) : Outcome Unit :=
  { mem := o.mem
    events := o.events
    status :=
      match o.status with
      | .returned _ => .returned ()
      | .panicked p => .panicked p
      | .blocked => .blocked }

/-- Run one operation. -/
def step (op : Op) (m : Mem) : Outcome Unit :=
  match op with
  | .New cpipeline => (New cpipeline m).void
  | .PullMessage p => (Pipeline.PullMessage p m).void
  | .FindElement p gelement => (Pipeline.FindElement p gelement m).void
  | .Poll e => (Element.Poll e m).void
  | .PipelineStop p => Pipeline.Stop p m
  | .ElementStop e => Element.Stop e m
  | .goHandleSinkBuffer buffer elementID => goHandleSinkBuffer buffer elementID m
  | .goHandleSinkEOS elementID => goHandleSinkEOS elementID m
  | .goHandleBusMessage message pipelineId => goHandleBusMessage message pipelineId m
  | .recvOut c =>
    match hostRecv m.bufChans c with
    | some chans => { mem := { m with bufChans := chans }, events := [], status := .returned () }
    | none => { mem := m, events := [], status := .blocked }
  | .recvMessages c =>
    match hostRecv m.msgChans c with
    | some chans => { mem := { m with msgChans := chans }, events := [], status := .returned () }
    | none => { mem := m, events := [], status := .blocked }

/-- Run operations one after another; the run ends at the first call that does not return. -/
def run : Mem → List Op → Outcome Unit
  | m, [] => { mem := m, events := [], status := .returned () }
  | m, op :: rest =>
    let o := step op m
    match o.status with
    | .returned _ =>
      let r := run o.mem rest
      { mem := r.mem, events := o.events ++ r.events, status := r.status }
    | _ => o

/-! ## Definitions used to state and prove the properties -/

/-- Every element's `stop` flag tells whether its `out` channel is closed, a never polled
element is not stopped, and no two elements share a channel. -/
def EInv (objs : List Element) (chans : List (Chan Bytes)) : Prop :=
  (∀ (e : Nat) (obj : Element), objs[e]? = some obj →
    (obj.out = none → obj.stop = false) ∧
    (∀ c : Nat, obj.out = some c → ∃ ch : Chan Bytes, chans[c]? = some ch ∧ ch.closed = obj.stop)) ∧
  (∀ (e e' : Nat) (obj obj' : Element) (c : Nat), objs[e]? = some obj → objs[e']? = some obj' →
    obj.out = some c → obj'.out = some c → e = e')

/-- Every key of `pipelines` points to a pipeline object carrying that id whose
`messages` channel, if any, is open; channel references are allocated; no two
pipelines share a channel. -/
def PInv (pm : List (Int × Nat)) (objs : List Pipeline) (chans : List (Chan Message)) : Prop :=
  (∀ (k : Int) (p : Nat), mapGet pm k = some p →
    ∃ obj : Pipeline, objs[p]? = some obj ∧ obj.id = k ∧
      ∀ c : Nat, obj.messages = some c →
        ∃ ch : Chan Message, chans[c]? = some ch ∧ ch.closed = false) ∧
  (∀ (p : Nat) (obj : Pipeline) (c : Nat), objs[p]? = some obj → obj.messages = some c →
    c < chans.length) ∧
  (∀ (p q : Nat) (objp objq : Pipeline) (c : Nat), objs[p]? = some objp →
    objs[q]? = some objq → objp.messages = some c → objq.messages = some c → p = q)

/-- The structural invariant of the whole memory. -/
def Inv (m : Mem) : Prop :=
  EInv m.elementObjs m.bufChans ∧ PInv m.pipelines m.pipelineObjs m.msgChans

/-- Channel `c` exists and is closed. -/
def closedAt {α : Type} (chans : List (Chan α)) (c : Nat) : Prop :=
  ∃ ch : Chan α, chans[c]? = some ch ∧ ch.closed = true

/-- The ids handed out by `New` and `FindElement`, in the order of registration. -/
def issuedIds : List Ev → List Int
  | [] => []
  | .registerPipeline id _ :: t => id :: issuedIds t
  | .registerElement id _ :: t => id :: issuedIds t
  | _ :: t => issuedIds t

/-- Whether an operation asks for a fresh id (1) or not (0). -/
def registers : Op → Nat
  | .New (some _) => 1
  | .FindElement _ (some _) => 1
  | _ => 0

/-- The number of operations of a run that ask for a fresh id: the counter is incremented
at most this many times. -/
def registrations : List Op → Nat
  | [] => 0
  | op :: rest => registers op + registrations rest

/-- Every key of both maps and every id stored in an object is at most the counter, and
the key sets of the two maps are disjoint. -/
def IdInv (m : Mem) : Prop :=
  (∀ k ∈ mapKeys m.pipelines, k ≤ m.gstreamerIdGenerate) ∧
  (∀ k ∈ mapKeys m.elements, k ≤ m.gstreamerIdGenerate) ∧
  (∀ k ∈ mapKeys m.pipelines, k ∉ mapKeys m.elements) ∧
  (∀ obj ∈ m.pipelineObjs, obj.id ≤ m.gstreamerIdGenerate) ∧
  (∀ obj ∈ m.elementObjs, obj.id ≤ m.gstreamerIdGenerate)

/-- A step that registers nothing: the counter stays, no key is added, stored ids stay. -/
def Quiet (m m' : Mem) : Prop :=
  m'.gstreamerIdGenerate = m.gstreamerIdGenerate ∧
  (∀ k ∈ mapKeys m'.pipelines, k ∈ mapKeys m.pipelines) ∧
  (∀ k ∈ mapKeys m'.elements, k ∈ mapKeys m.elements) ∧
  (∀ obj ∈ m'.pipelineObjs, ∃ o ∈ m.pipelineObjs, o.id = obj.id) ∧
  (∀ obj ∈ m'.elementObjs, ∃ o ∈ m.elementObjs, o.id = obj.id)

/-- Whether every access to a `stop` flag and every `close` in the trace happens while the
registry lock is held; `held` tells whether it is held at the start. -/
def lockDiscipline : Bool → List Ev → Bool
  | _, [] => true
  | _, .lock :: t => lockDiscipline true t
  | _, .unlock :: t => lockDiscipline false t
  | held, .readStop _ :: t => held && lockDiscipline held t
  | held, .writeStop _ :: t => held && lockDiscipline held t
  | held, .close _ :: t => held && lockDiscipline held t
  | held, _ :: t => lockDiscipline held t

/-- Whether no `send` on a queue comes after a `close` of that queue; `closed` lists the
queues closed before the trace starts. -/
def sendsOnlyOpen : List Queue → List Ev → Bool
  | _, [] => true
  | closed, .close q :: t => sendsOnlyOpen (q :: closed) t
  | closed, .send q :: t => decide (q ∉ closed) && sendsOnlyOpen closed t
  | closed, _ :: t => sendsOnlyOpen closed t

/-- The queue exists and is closed. -/
def queueClosed (m : Mem) : Queue → Prop
  | .messages c => closedAt m.msgChans c
  | .out c => closedAt m.bufChans c

/-- The trace of one step, as the check `sendsOnlyOpen` sees it: no send and no close, or
one close of a queue that is closed afterwards, or one send on a queue that was open. -/
def StepTrace (m m' : Mem) (evs : List Ev) : Prop :=
  (∀ (closed : List Queue) (rest : List Ev),
      sendsOnlyOpen closed (evs ++ rest) = sendsOnlyOpen closed rest) ∨
  (∃ q : Queue, queueClosed m' q ∧ ∀ (closed : List Queue) (rest : List Ev),
      sendsOnlyOpen closed (evs ++ rest) = sendsOnlyOpen (q :: closed) rest) ∨
  (∃ q : Queue, ¬ queueClosed m q ∧ ∀ (closed : List Queue) (rest : List Ev),
      sendsOnlyOpen closed (evs ++ rest) =
        (decide (q ∉ closed) && sendsOnlyOpen closed rest))

theorem mapGet_mapDelete (m : List (Int × Nat)) (k k' : Int) :
    mapGet (mapDelete m k) k' = if k' = k then none else mapGet m k' := by
  induction m with
  | nil => simp [mapDelete, mapGet]
  | cons kv t ih =>
    obtain ⟨a, v⟩ := kv
    simp only [mapDelete] at ih
    by_cases ha : a = k
    · subst ha
      simp only [mapDelete, List.filter, ne_eq, not_true_eq_false, decide_False, mapGet]
      rw [ih]
      by_cases hk : k' = a
      · simp [hk]
      · simp [hk, Ne.symm hk]
    · simp only [mapDelete, List.filter, ne_eq, ha, not_false_eq_true, decide_True, mapGet]
      rw [ih]
      by_cases hk : k' = k
      · subst hk; simp [ha]
      · simp [hk]

theorem mapGet_mapSet (m : List (Int × Nat)) (k k' : Int) (v : Nat) :
    mapGet (mapSet m k v) k' = if k' = k then some v else mapGet m k' := by
  by_cases hk : k' = k
  · simp [mapSet, mapGet, hk]
  · simp [mapSet, mapGet, hk, Ne.symm hk, mapGet_mapDelete]

theorem mapDelete_idem (m : List (Int × Nat)) (k : Int) :
    mapDelete (mapDelete m k) k = mapDelete m k := by
  simp [mapDelete, List.filter_filter]

theorem mem_mapKeys_mapDelete (m : List (Int × Nat)) (k k' : Int) :
    k' ∈ mapKeys (mapDelete m k) ↔ k' ∈ mapKeys m ∧ k' ≠ k := by
  simp only [mapKeys, mapDelete, List.mem_map, List.mem_filter, decide_eq_true_eq]
  constructor
  · rintro ⟨a, ⟨ha, hne⟩, rfl⟩
    exact ⟨⟨a, ha, rfl⟩, hne⟩
  · rintro ⟨⟨a, ha, rfl⟩, hne⟩
    exact ⟨a, ⟨ha, hne⟩, rfl⟩

theorem mem_mapKeys_mapSet (m : List (Int × Nat)) (k k' : Int) (v : Nat) :
    k' ∈ mapKeys (mapSet m k v) ↔ k' = k ∨ k' ∈ mapKeys m := by
  have h := mem_mapKeys_mapDelete m k k'
  simp only [mapKeys] at h
  simp only [mapSet, mapKeys, List.map_cons, List.mem_cons, h]
  by_cases hk : k' = k <;> simp [hk]

theorem EInv_nil : EInv [] [] := by
  unfold EInv
  constructor
  · intro e obj h; simp at h
  · intro e e' obj obj' c h; simp at h

theorem EInv_append_obj {objs : List Element} {chans : List (Chan Bytes)} (h : EInv objs chans)
    (g : Handle) (id : Int) :
    EInv (objs ++ [{ element := g, out := none, stop := false, id := id }]) chans := by
  unfold EInv at h ⊢
  obtain ⟨h1, h2⟩ := h
  have key : ∀ (e : Nat) (obj : Element), (objs ++ [({ element := g, out := none, stop := false, id := id } :
      Element)])[e]? = some obj → obj.out ≠ none → objs[e]? = some obj := by
    intro e obj he hout
    rw [List.getElem?_append] at he
    split at he
    · exact he
    · exfalso
      rcases Nat.eq_zero_or_pos (e - objs.length) with h0 | hpos
      · rw [h0] at he
        simp at he
        subst he
        exact hout rfl
      · have : ([({ element := g, out := none, stop := false, id := id } : Element)])[e
            - objs.length]? = none := by
          apply List.getElem?_eq_none
          simp only [List.length_singleton]; omega
        rw [this] at he
        cases he
  constructor
  · intro e obj he
    by_cases hout : obj.out = none
    · refine ⟨fun _ => ?_, fun c hc => by rw [hout] at hc; cases hc⟩
      rw [List.getElem?_append] at he
      split at he
      · exact (h1 e obj he).1 hout
      · rcases Nat.eq_zero_or_pos (e - objs.length) with h0 | hpos
        · rw [h0] at he
          simp at he
          subst he
          rfl
        · have : ([({ element := g, out := none, stop := false, id := id } : Element)])[e
              - objs.length]? = none := by
            apply List.getElem?_eq_none
            simp only [List.length_singleton]; omega
          rw [this] at he
          cases he
    · exact ⟨fun hn => absurd hn hout, (h1 e obj (key e obj he hout)).2⟩
  · intro e e' obj obj' c he he' hc hc'
    exact h2 e e' obj obj' c (key e obj he (by rw [hc]; simp))
      (key e' obj' he' (by rw [hc']; simp)) hc hc'

theorem EInv_set_chan {objs : List Element} {chans : List (Chan Bytes)} (h : EInv objs chans)
    {c : Nat} {ch ch' : Chan Bytes} (hc : chans[c]? = some ch) (hcl : ch'.closed = ch.closed) :
    EInv objs (chans.set c ch') := by
  unfold EInv at h ⊢
  obtain ⟨h1, h2⟩ := h
  refine ⟨fun e obj he => ⟨(h1 e obj he).1, fun c0 hc0 => ?_⟩, h2⟩
  obtain ⟨ch0, hch0, hcl0⟩ := (h1 e obj he).2 c0 hc0
  by_cases hcc : c = c0
  · subst hcc
    rw [hc] at hch0
    cases hch0
    have hlt : c < chans.length := (List.getElem?_eq_some.mp hc).1
    exact ⟨ch', by simp [List.getElem?_set, hlt], by rw [hcl, hcl0]⟩
  · exact ⟨ch0, by rw [List.getElem?_set_ne hcc]; exact hch0, hcl0⟩

theorem EInv_poll {objs : List Element} {chans : List (Chan Bytes)} (h : EInv objs chans)
    {e : Nat} {obj : Element} (he : objs[e]? = some obj) (hout : obj.out = none) :
    EInv (objs.set e { obj with out := some chans.length })
      (chans ++ [{ cap := 10, buf := [], closed := false }]) := by
  unfold EInv at h ⊢
  obtain ⟨h1, h2⟩ := h
  have hlt : e < objs.length := (List.getElem?_eq_some.mp he).1
  have hstop : obj.stop = false := (h1 e obj he).1 hout
  have old : ∀ (e0 : Nat) (obj0 : Element) (c0 : Nat), objs[e0]? = some obj0 → obj0.out = some c0 → c0 < chans.length := by
    intro e0 obj0 c0 h0 hc0
    obtain ⟨ch0, hch0, _⟩ := (h1 e0 obj0 h0).2 c0 hc0
    exact (List.getElem?_eq_some.mp hch0).1
  constructor
  · intro e0 obj0 h0
    rw [List.getElem?_set] at h0
    split at h0
    · simp only [hlt, if_true, Option.some.injEq] at h0
      subst h0
      refine ⟨fun hn => by simp at hn, fun c0 hc0 => ?_⟩
      simp only [Option.some.injEq] at hc0
      subst hc0
      exact ⟨_, List.getElem?_concat_length _ _, hstop.symm⟩
    · refine ⟨(h1 e0 obj0 h0).1, fun c0 hc0 => ?_⟩
      obtain ⟨ch0, hch0, hcl0⟩ := (h1 e0 obj0 h0).2 c0 hc0
      exact ⟨ch0, by rw [List.getElem?_append_left (old e0 obj0 c0 h0 hc0)]; exact hch0, hcl0⟩
  · intro e1 e2 obj1 obj2 c0 he1 he2 hc1 hc2
    rw [List.getElem?_set] at he1 he2
    by_cases h1e : e = e1 <;> by_cases h2e : e = e2
    · rw [← h1e, ← h2e]
    · exfalso
      simp only [h1e, if_true] at he1
      simp only [h2e, if_false] at he2
      rw [← h1e] at he1
      simp only [hlt, if_true, Option.some.injEq] at he1
      subst he1
      simp only [Option.some.injEq] at hc1
      have := old e2 obj2 c0 he2 hc2
      omega
    · exfalso
      simp only [h1e, if_false] at he1
      simp only [h2e, if_true] at he2
      rw [← h2e] at he2
      simp only [hlt, if_true, Option.some.injEq] at he2
      subst he2
      simp only [Option.some.injEq] at hc2
      have := old e1 obj1 c0 he1 hc1
      omega
    · simp only [h1e, if_false] at he1
      simp only [h2e, if_false] at he2
      exact h2 e1 e2 obj1 obj2 c0 he1 he2 hc1 hc2

theorem EInv_close {objs : List Element} {chans : List (Chan Bytes)} (h : EInv objs chans)
    {e c : Nat} {obj : Element} {ch : Chan Bytes} (he : objs[e]? = some obj)
    (hout : obj.out = some c) (hc : chans[c]? = some ch) :
    EInv (objs.set e { obj with stop := true }) (chans.set c { ch with closed := true }) := by
  unfold EInv at h ⊢
  obtain ⟨h1, h2⟩ := h
  have hlt : e < objs.length := (List.getElem?_eq_some.mp he).1
  have hclt : c < chans.length := (List.getElem?_eq_some.mp hc).1
  constructor
  · intro e0 obj0 h0
    rw [List.getElem?_set] at h0
    split at h0
    · simp only [hlt, if_true, Option.some.injEq] at h0
      subst h0
      refine ⟨fun hn => by simp [hout] at hn, fun c0 hc0 => ?_⟩
      simp only [hout, Option.some.injEq] at hc0
      subst hc0
      exact ⟨{ ch with closed := true }, by simp [List.getElem?_set, hclt], rfl⟩
    · rename_i hne
      refine ⟨(h1 e0 obj0 h0).1, fun c0 hc0 => ?_⟩
      obtain ⟨ch0, hch0, hcl0⟩ := (h1 e0 obj0 h0).2 c0 hc0
      have hcc : c ≠ c0 := by
        intro hcc
        subst hcc
        exact hne (h2 e e0 obj obj0 c he h0 hout hc0)
      exact ⟨ch0, by rw [List.getElem?_set_ne hcc]; exact hch0, hcl0⟩
  · intro e1 e2 obj1 obj2 c0 he1 he2 hc1 hc2
    have back : ∀ (e0 : Nat) (obj0 : Element), (objs.set e { obj with stop := true })[e0]? = some obj0 →
        obj0.out = some c0 → ∃ o, objs[e0]? = some o ∧ o.out = some c0 := by
      intro e0 obj0 h0 hc0
      rw [List.getElem?_set] at h0
      split at h0
      · rename_i heq
        simp only [hlt, if_true, Option.some.injEq] at h0
        subst h0
        subst heq
        exact ⟨obj, he, hc0⟩
      · exact ⟨obj0, h0, hc0⟩
    obtain ⟨o1, ho1, hoc1⟩ := back e1 obj1 he1 hc1
    obtain ⟨o2, ho2, hoc2⟩ := back e2 obj2 he2 hc2
    exact h2 e1 e2 o1 o2 c0 ho1 ho2 hoc1 hoc2

/-- The statement `e.stop = true` alone, as left behind when the following `close` panics
on a channel that is already closed. -/
theorem EInv_stop_closed {objs : List Element} {chans : List (Chan Bytes)} (h : EInv objs chans)
    {e c : Nat} {obj : Element} {ch : Chan Bytes} (he : objs[e]? = some obj)
    (hout : obj.out = some c) (hc : chans[c]? = some ch) (hcl : ch.closed = true) :
    EInv (objs.set e { obj with stop := true }) chans := by
  have h' := EInv_close h he hout hc
  have : chans.set c { ch with closed := true } = chans := by
    have hch : ({ ch with closed := true } : Chan Bytes) = ch := by
      cases ch
      simp only [Chan.mk.injEq, true_and] at *
      exact hcl.symm
    rw [hch]
    apply List.ext_getElem?
    intro i
    rw [List.getElem?_set]
    split
    · rename_i hi
      subst hi
      simp [(List.getElem?_eq_some.mp hc).1, hc]
    · rfl
  rw [this] at h'
  exact h'

/-! ## Invariant of the pipeline side: a registered pipeline's `messages` is open -/

theorem PInv_nil : PInv [] [] [] := by
  unfold PInv
  refine ⟨?_, ?_, ?_⟩
  · intro k p h; simp [mapGet] at h
  · intro p obj c h; simp at h
  · intro p q objp objq c h; simp at h

theorem getElem?_append_singleton {α : Type} (l : List α) (a b : α) (i : Nat)
    (h : (l ++ [a])[i]? = some b) : l[i]? = some b ∨ (i = l.length ∧ b = a) := by
  rw [List.getElem?_append] at h
  split at h
  · exact Or.inl h
  · rcases Nat.eq_zero_or_pos (i - l.length) with h0 | hpos
    · rw [h0] at h
      simp only [List.getElem?_cons_zero, Option.some.injEq] at h
      exact Or.inr ⟨by omega, h.symm⟩
    · have : ([a])[i - l.length]? = none := by
        apply List.getElem?_eq_none
        simp only [List.length_singleton]; omega
      rw [this] at h
      cases h

theorem getElem?_append_of_some {α : Type} (l l' : List α) (b : α) (i : Nat)
    (h : l[i]? = some b) : (l ++ l')[i]? = some b := by
  rw [List.getElem?_append_left (List.getElem?_eq_some.mp h).1]
  exact h

theorem PInv_new {pm : List (Int × Nat)} {objs : List Pipeline} {chans : List (Chan Message)}
    (h : PInv pm objs chans) (hd : Handle) (id : Int) :
    PInv (mapSet pm id objs.length) (objs ++ [{ pipeline := hd, messages := none, id := id }])
      chans := by
  unfold PInv at h ⊢
  obtain ⟨h1, h2, h3⟩ := h
  have key : ∀ (p : Nat) (obj : Pipeline) (c : Nat),
      (objs ++ [({ pipeline := hd, messages := none, id := id } : Pipeline)])[p]? = some obj →
      obj.messages = some c → objs[p]? = some obj := by
    intro p obj c hp hc
    rcases getElem?_append_singleton _ _ _ _ hp with h | ⟨_, h⟩
    · exact h
    · subst h
      cases hc
  refine ⟨?_, ?_, ?_⟩
  · intro k p hk
    rw [mapGet_mapSet] at hk
    split at hk
    · rename_i hkid
      simp only [Option.some.injEq] at hk
      subst hk
      exact ⟨_, List.getElem?_concat_length _ _, hkid.symm, fun c hc => by cases hc⟩
    · obtain ⟨obj, ho, hid, hch⟩ := h1 k p hk
      exact ⟨obj, getElem?_append_of_some _ _ _ _ ho, hid, hch⟩
  · intro p obj c hp hc
    exact h2 p obj c (key p obj c hp hc) hc
  · intro p q objp objq c hp hq hcp hcq
    exact h3 p q objp objq c (key p objp c hp hcp) (key q objq c hq hcq) hcp hcq

theorem PInv_pull {pm : List (Int × Nat)} {objs : List Pipeline} {chans : List (Chan Message)}
    (h : PInv pm objs chans) {p : Nat} {obj : Pipeline} (hp : objs[p]? = some obj) :
    PInv pm (objs.set p { obj with messages := some chans.length })
      (chans ++ [{ cap := 5, buf := [], closed := false }]) := by
  unfold PInv at h ⊢
  obtain ⟨h1, h2, h3⟩ := h
  have hlt : p < objs.length := (List.getElem?_eq_some.mp hp).1
  refine ⟨?_, ?_, ?_⟩
  · intro k q hk
    obtain ⟨o, ho, hid, hch⟩ := h1 k q hk
    by_cases hpq : p = q
    · subst hpq
      rw [hp] at ho
      cases ho
      refine ⟨{ obj with messages := some chans.length }, by simp [List.getElem?_set, hlt],
        hid, fun c hc => ?_⟩
      simp only [Option.some.injEq] at hc
      subst hc
      exact ⟨_, List.getElem?_concat_length _ _, rfl⟩
    · refine ⟨o, by rw [List.getElem?_set_ne hpq]; exact ho, hid, fun c hc => ?_⟩
      obtain ⟨ch, hch1, hch2⟩ := hch c hc
      exact ⟨ch, getElem?_append_of_some _ _ _ _ hch1, hch2⟩
  · intro q o c hq hc
    rw [List.getElem?_set] at hq
    simp only [List.length_append, List.length_singleton]
    split at hq
    · simp only [hlt, if_true, Option.some.injEq] at hq
      subst hq
      simp only [Option.some.injEq] at hc
      omega
    · have := h2 q o c hq hc
      omega
  · intro q1 q2 o1 o2 c hq1 hq2 hc1 hc2
    rw [List.getElem?_set] at hq1 hq2
    by_cases h1e : p = q1 <;> by_cases h2e : p = q2
    · rw [← h1e, ← h2e]
    · exfalso
      simp only [h1e, if_true] at hq1
      simp only [h2e, if_false] at hq2
      rw [← h1e] at hq1
      simp only [hlt, if_true, Option.some.injEq] at hq1
      subst hq1
      simp only [Option.some.injEq] at hc1
      have := h2 q2 o2 c hq2 hc2
      omega
    · exfalso
      simp only [h1e, if_false] at hq1
      simp only [h2e, if_true] at hq2
      rw [← h2e] at hq2
      simp only [hlt, if_true, Option.some.injEq] at hq2
      subst hq2
      simp only [Option.some.injEq] at hc2
      have := h2 q1 o1 c hq1 hc1
      omega
    · simp only [h1e, if_false] at hq1
      simp only [h2e, if_false] at hq2
      exact h3 q1 q2 o1 o2 c hq1 hq2 hc1 hc2

theorem PInv_delete {pm : List (Int × Nat)} {objs : List Pipeline} {chans : List (Chan Message)}
    (h : PInv pm objs chans) (id : Int) : PInv (mapDelete pm id) objs chans := by
  unfold PInv at h ⊢
  obtain ⟨h1, h2, h3⟩ := h
  refine ⟨?_, h2, h3⟩
  intro k p hk
  rw [mapGet_mapDelete] at hk
  split at hk
  · cases hk
  · exact h1 k p hk

/-- Changing the channel of a pipeline that is not registered. -/
theorem PInv_set_unregistered {pm : List (Int × Nat)} {objs : List Pipeline}
    {chans : List (Chan Message)} (h : PInv pm objs chans) {p c : Nat} {obj : Pipeline}
    (hp : objs[p]? = some obj) (hc : obj.messages = some c)
    (hun : ∀ k : Int, mapGet pm k ≠ some p) (ch' : Chan Message) :
    PInv pm objs (chans.set c ch') := by
  unfold PInv at h ⊢
  obtain ⟨h1, h2, h3⟩ := h
  refine ⟨?_, ?_, h3⟩
  · intro k q hk
    obtain ⟨o, ho, hid, hch⟩ := h1 k q hk
    refine ⟨o, ho, hid, fun c0 hc0 => ?_⟩
    obtain ⟨ch, hch1, hch2⟩ := hch c0 hc0
    have hne : c ≠ c0 := by
      intro hcc
      subst hcc
      have := h3 p q obj o c hp ho hc hc0
      subst this
      exact hun k hk
    exact ⟨ch, by rw [List.getElem?_set_ne hne]; exact hch1, hch2⟩
  · intro q o c0 hq hc0
    rw [List.length_set]
    exact h2 q o c0 hq hc0

theorem PInv_set_chan {pm : List (Int × Nat)} {objs : List Pipeline}
    {chans : List (Chan Message)} (h : PInv pm objs chans) {c : Nat} {ch ch' : Chan Message}
    (hc : chans[c]? = some ch) (hcl : ch'.closed = ch.closed) :
    PInv pm objs (chans.set c ch') := by
  unfold PInv at h ⊢
  obtain ⟨h1, h2, h3⟩ := h
  have hlt : c < chans.length := (List.getElem?_eq_some.mp hc).1
  refine ⟨?_, ?_, h3⟩
  · intro k q hk
    obtain ⟨o, ho, hid, hch⟩ := h1 k q hk
    refine ⟨o, ho, hid, fun c0 hc0 => ?_⟩
    obtain ⟨ch0, hch1, hch2⟩ := hch c0 hc0
    by_cases hcc : c = c0
    · subst hcc
      rw [hc] at hch1
      cases hch1
      exact ⟨ch', by simp [List.getElem?_set, hlt], by rw [hcl, hch2]⟩
    · exact ⟨ch0, by rw [List.getElem?_set_ne hcc]; exact hch1, hch2⟩
  · intro q o c0 hq hc0
    rw [List.length_set]
    exact h2 q o c0 hq hc0

theorem PInv_unregistered {pm : List (Int × Nat)} {objs : List Pipeline}
    {chans : List (Chan Message)} (h : PInv pm objs chans) {p : Nat} {obj : Pipeline}
    (hp : objs[p]? = some obj) : ∀ k : Int, mapGet (mapDelete pm obj.id) k ≠ some p := by
  intro k hk
  rw [mapGet_mapDelete] at hk
  split at hk
  · cases hk
  · rename_i hne
    obtain ⟨o, ho, hid, _⟩ := h.1 k p hk
    rw [hp] at ho
    cases ho
    exact hne hid.symm

/-! ## Channel primitives -/

theorem Chan.send_sent {α : Type} {ch ch' : Chan α} {v : α} (h : ch.send v = .sent ch') :
    ch.closed = false ∧ ch.buf.length < ch.cap ∧ ch' = { ch with buf := ch.buf ++ [v] } := by
  unfold Chan.send at h
  split at h
  · cases h
  · split at h
    · rename_i hc hl
      simp only [SendResult.sent.injEq] at h
      exact ⟨by simpa using hc, hl, h.symm⟩
    · cases h

theorem Chan.send_panicClosed {α : Type} {ch : Chan α} {v : α} (h : ch.send v = .panicClosed) :
    ch.closed = true := by
  unfold Chan.send at h
  split at h
  · assumption
  · split at h <;> cases h

theorem Chan.close_some {α : Type} {ch ch' : Chan α} (h : ch.close = some ch') :
    ch.closed = false ∧ ch' = { ch with closed := true } := by
  unfold Chan.close at h
  split at h
  · cases h
  · rename_i hc
    simp only [Option.some.injEq] at h
    exact ⟨by simpa using hc, h.symm⟩

theorem Chan.close_none {α : Type} {ch : Chan α} (h : ch.close = none) : ch.closed = true := by
  unfold Chan.close at h
  split at h
  · assumption
  · cases h

theorem Chan.recv_some {α : Type} {ch ch' : Chan α} {v : α} (h : ch.recv = some (v, ch')) :
    ch.buf = v :: ch'.buf ∧ ch'.closed = ch.closed ∧ ch'.cap = ch.cap := by
  unfold Chan.recv at h
  split at h
  · cases h
  · rename_i w rest hb
    simp only [Option.some.injEq, Prod.mk.injEq] at h
    obtain ⟨hv, hch⟩ := h
    subst hv
    subst hch
    exact ⟨hb, rfl, rfl⟩

theorem hostRecv_some {α : Type} {chans chans' : List (Chan α)} {c : Nat}
    (h : hostRecv chans c = some chans') :
    chans' = chans ∨ ∃ (ch ch' : Chan α) (v : α), chans[c]? = some ch ∧
      ch.recv = some (v, ch') ∧ chans' = chans.set c ch' := by
  unfold hostRecv at h
  split at h
  · cases h
  · rename_i ch hch
    split at h
    · rename_i v ch' hr
      simp only [Option.some.injEq] at h
      exact Or.inr ⟨ch, ch', v, hch, hr, h.symm⟩
    · split at h
      · simp only [Option.some.injEq] at h
        exact Or.inl h.symm
      · cases h

/-! ## The invariant holds in every state an execution passes through -/

theorem Inv_init : Inv init :=
  ⟨EInv_nil, PInv_nil⟩

theorem Inv_New (cpipeline : Option Handle) (m : Mem) (h : Inv m) : Inv (New cpipeline m).mem := by
  unfold New
  split
  · exact h
  · exact ⟨h.1, PInv_new h.2 _ _⟩

theorem Inv_PullMessage (p : Nat) (m : Mem) (h : Inv m) : Inv (Pipeline.PullMessage p m).mem := by
  unfold Pipeline.PullMessage
  split
  · exact h
  · rename_i obj hp
    exact ⟨h.1, PInv_pull h.2 hp⟩

theorem Inv_FindElement (p : Nat) (g : Option Handle) (m : Mem) (h : Inv m) :
    Inv (Pipeline.FindElement p g m).mem := by
  unfold Pipeline.FindElement
  split
  · exact h
  · split
    · exact h
    · exact ⟨EInv_append_obj h.1 _ _, h.2⟩

theorem Inv_Poll (e : Nat) (m : Mem) (h : Inv m) : Inv (Element.Poll e m).mem := by
  unfold Element.Poll
  split
  · exact h
  · rename_i obj he
    split
    · rename_i hout
      exact ⟨EInv_poll h.1 he hout, h.2⟩
    · exact h

theorem Inv_PipelineStop (p : Nat) (m : Mem) (h : Inv m) : Inv (Pipeline.Stop p m).mem := by
  unfold Pipeline.Stop
  split
  · exact h
  · rename_i obj hp
    have hd : PInv (mapDelete m.pipelines obj.id) m.pipelineObjs m.msgChans :=
      PInv_delete h.2 _
    dsimp only
    split
    · exact ⟨h.1, hd⟩
    · rename_i c hc
      split
      · exact ⟨h.1, hd⟩
      · split
        · exact ⟨h.1, hd⟩
        · exact ⟨h.1, PInv_set_unregistered hd hp hc (PInv_unregistered h.2 hp) _⟩

theorem Inv_ElementStop (e : Nat) (m : Mem) (h : Inv m) : Inv (Element.Stop e m).mem := by
  unfold Element.Stop
  split
  · exact h
  · rename_i obj he
    dsimp only
    split
    · exact h
    · split
      · exact h
      · rename_i c hc
        obtain ⟨ch, hch, _⟩ := (h.1.1 e obj he).2 c hc
        simp only [hch]
        split
        · rename_i hcl
          exact ⟨EInv_stop_closed h.1 he hc hch (Chan.close_none hcl), h.2⟩
        · rename_i ch' hcl
          rw [(Chan.close_some hcl).2]
          exact ⟨EInv_close h.1 he hc hch, h.2⟩

theorem Inv_goHandleSinkBuffer (b : Bytes) (id : Int) (m : Mem) (h : Inv m) :
    Inv (goHandleSinkBuffer b id m).mem := by
  unfold goHandleSinkBuffer
  split
  · exact h
  · split
    · exact h
    · split
      · exact h
      · split
        · exact h
        · split
          · exact h
          · rename_i ch hch
            split
            · exact h
            · exact h
            · rename_i ch' hs
              exact ⟨EInv_set_chan h.1 hch (by rw [(Chan.send_sent hs).2.2]), h.2⟩

theorem Inv_goHandleSinkEOS (id : Int) (m : Mem) (h : Inv m) :
    Inv (goHandleSinkEOS id m).mem := by
  unfold goHandleSinkEOS
  split
  · exact h
  · rename_i e _
    split
    · exact h
    · rename_i obj he
      split
      · exact h
      · rename_i c hc
        split
        · exact h
        · obtain ⟨ch, hch, _⟩ := (h.1.1 e obj he).2 c hc
          simp only [hch]
          split
          · rename_i hcl
            exact ⟨EInv_stop_closed h.1 he hc hch (Chan.close_none hcl), h.2⟩
          · rename_i ch' hcl
            rw [(Chan.close_some hcl).2]
            exact ⟨EInv_close h.1 he hc hch, h.2⟩

theorem Inv_goHandleBusMessage (msg : Handle) (id : Int) (m : Mem) (h : Inv m) :
    Inv (goHandleBusMessage msg id m).mem := by
  unfold goHandleBusMessage
  dsimp only
  split
  · exact h
  · split
    · exact h
    · split
      · exact h
      · split
        · exact h
        · rename_i ch hch
          split
          · exact h
          · exact h
          · rename_i ch' hs
            exact ⟨h.1, PInv_set_chan h.2 hch (by rw [(Chan.send_sent hs).2.2])⟩

theorem Outcome.void_mem {α : Type} (o : Outcome α) : o.void.mem = o.mem := rfl

theorem Outcome.void_events {α : Type} (o : Outcome α) : o.void.events = o.events := rfl

theorem Inv_step (op : Op) (m : Mem) (h : Inv m) : Inv (step op m).mem := by
  cases op with
  | New cpipeline => exact Inv_New cpipeline m h
  | PullMessage p => exact Inv_PullMessage p m h
  | FindElement p g => exact Inv_FindElement p g m h
  | Poll e => exact Inv_Poll e m h
  | PipelineStop p => exact Inv_PipelineStop p m h
  | ElementStop e => exact Inv_ElementStop e m h
  | goHandleSinkBuffer b id => exact Inv_goHandleSinkBuffer b id m h
  | goHandleSinkEOS id => exact Inv_goHandleSinkEOS id m h
  | goHandleBusMessage msg id => exact Inv_goHandleBusMessage msg id m h
  | recvOut c =>
    simp only [step]
    split
    · rename_i chans hr
      rcases hostRecv_some hr with rfl | ⟨ch, ch', v, hch, hrecv, rfl⟩
      · exact h
      · exact ⟨EInv_set_chan h.1 hch (Chan.recv_some hrecv).2.1, h.2⟩
    · exact h
  | recvMessages c =>
    simp only [step]
    split
    · rename_i chans hr
      rcases hostRecv_some hr with rfl | ⟨ch, ch', v, hch, hrecv, rfl⟩
      · exact h
      · exact ⟨h.1, PInv_set_chan h.2 hch (Chan.recv_some hrecv).2.1⟩
    · exact h

theorem Inv_run (ops : List Op) : ∀ m : Mem, Inv m → Inv (run m ops).mem := by
  induction ops with
  | nil => intro m h; exact h
  | cons op rest ih =>
    intro m h
    have hs := Inv_step op m h
    simp only [run]
    split
    · exact ih _ hs
    · exact hs

/-! ## Plugin check -/

theorem CheckPlugins_all_present (registry : String → Bool) (plugins : List String)
    (h : ∀ x ∈ plugins, registry x = true) : CheckPlugins registry plugins = (plugins, none) := by
  induction plugins with
  | nil => rfl
  | cons a t ih =>
    have ha : registry a = true := h a (List.mem_cons_self a t)
    have ht := ih (fun x hx => h x (List.mem_cons_of_mem a hx))
    simp [CheckPlugins, ha, ht]

theorem CheckPlugins_error (registry : String → Bool) (plugins : List String) (msg : String)
    (h : (CheckPlugins registry plugins).2 = some msg) :
    ∃ (pre : List String) (name : String) (post : List String),
      plugins = pre ++ name :: post ∧ (∀ x ∈ pre, registry x = true) ∧ registry name = false ∧
      msg = "Required gstreamer plugin " ++ name ++ " not found" ∧
      (CheckPlugins registry plugins).1 = pre ++ [name] := by
  induction plugins with
  | nil => simp [CheckPlugins] at h
  | cons a t ih =>
    by_cases ha : registry a = true
    · simp only [CheckPlugins, ha, if_true] at h ⊢
      obtain ⟨pre, name, post, h1, h2, h3, h4, h5⟩ := ih h
      refine ⟨a :: pre, name, post, by rw [h1]; rfl, ?_, h3, h4, by rw [h5]; rfl⟩
      intro x hx
      rcases List.mem_cons.mp hx with rfl | hx
      · exact ha
      · exact h2 x hx
    · have ha' : registry a = false := by simpa using ha
      simp only [CheckPlugins, ha', Bool.false_eq_true, if_false, Option.some.injEq] at h ⊢
      exact ⟨[], a, t, rfl, by simp, ha', h.symm, rfl⟩

/-- C8. With the native plugin registry as a membership predicate, `CheckPlugins` returns
an error exactly when some listed name is absent; the error message names the first absent
name in list order and the names looked up are exactly those up to and including it; when
every name is present (in particular for the empty list) it returns no error after looking
up every name. -/
theorem CheckPlugins_spec (registry : String → Bool) (plugins : List String) :
    ((CheckPlugins registry plugins).2 ≠ none ↔ ∃ name ∈ plugins, registry name = false) ∧
    (∀ msg : String, (CheckPlugins registry plugins).2 = some msg →
      ∃ (pre : List String) (name : String) (post : List String),
        plugins = pre ++ name :: post ∧ (∀ x ∈ pre, registry x = true) ∧
        registry name = false ∧
        msg = "Required gstreamer plugin " ++ name ++ " not found" ∧
        (CheckPlugins registry plugins).1 = pre ++ [name]) ∧
    ((∀ x ∈ plugins, registry x = true) → CheckPlugins registry plugins = (plugins, none)) ∧
    CheckPlugins registry [] = ([], none) := by
  refine ⟨⟨?_, ?_⟩, CheckPlugins_error registry plugins,
    CheckPlugins_all_present registry plugins, rfl⟩
  · intro h
    obtain ⟨msg, hmsg⟩ := Option.ne_none_iff_exists'.mp h
    obtain ⟨pre, name, post, h1, _, h3, _, _⟩ := CheckPlugins_error registry plugins msg hmsg
    exact ⟨name, by rw [h1]; simp, h3⟩
  · rintro ⟨name, hmem, hname⟩ hnone
    by_cases hall : ∀ x ∈ plugins, registry x = true
    · rw [hall name hmem] at hname
      cases hname
    · induction plugins with
      | nil => simp at hmem
      | cons a t ih =>
        by_cases ha : registry a = true
        · simp only [CheckPlugins, ha, if_true] at hnone
          rcases List.mem_cons.mp hmem with rfl | hmem'
          · rw [ha] at hname
            cases hname
          · apply ih hmem' hnone
            intro hall'
            apply hall
            intro x hx
            rcases List.mem_cons.mp hx with rfl | hx
            · exact ha
            · exact hall' x hx
        · have ha' : registry a = false := by simpa using ha
          simp [CheckPlugins, ha'] at hnone

/-! ## Stopping and polling an element -/

theorem getElem?_set_self_of_some {α : Type} {l : List α} {i : Nat} {a b : α}
    (h : l[i]? = some a) : (l.set i b)[i]? = some b := by
  simp [List.getElem?_set, (List.getElem?_eq_some.mp h).1]

theorem Element_Stop_twice (m : Mem) (hinv : EInv m.elementObjs m.bufChans) (e : Nat)
    (obj : Element) (he : m.elementObjs[e]? = some obj) :
    (Element.Stop e m).status = .returned () ∧
    Element.Stop e (Element.Stop e m).mem =
      { mem := (Element.Stop e m).mem
        events := [.lock, .deleteElement obj.id, .unlock, .readStop e]
        status := .returned () } ∧
    (∀ c : Nat, obj.out = some c → ∃ ch : Chan Bytes, m.bufChans[c]? = some ch ∧
      List.count (Ev.close (.out c))
        ((Element.Stop e m).events ++ (Element.Stop e (Element.Stop e m).mem).events) =
        if ch.closed then 0 else 1) ∧
    (∀ q : Queue, Ev.close q ∈
        (Element.Stop e m).events ++ (Element.Stop e (Element.Stop e m).mem).events →
      ∃ c : Nat, obj.out = some c ∧ q = .out c) := by
  obtain ⟨hnone, hsome⟩ := hinv.1 e obj he
  by_cases hstop : obj.stop = true
  · have h1 : Element.Stop e m =
        { mem := { m with elements := mapDelete m.elements obj.id }
          events := [.lock, .deleteElement obj.id, .unlock, .readStop e]
          status := .returned () } := by
      simp only [Element.Stop, he, hstop, if_true]
    have h2 : Element.Stop e { m with elements := mapDelete m.elements obj.id } =
        { mem := { m with elements := mapDelete m.elements obj.id }
          events := [.lock, .deleteElement obj.id, .unlock, .readStop e]
          status := .returned () } := by
      simp only [Element.Stop, he, hstop, if_true, mapDelete_idem]
    rw [h1, h2]
    refine ⟨rfl, rfl, ?_, ?_⟩
    · intro c hc
      obtain ⟨ch, hch, hcl⟩ := hsome c hc
      refine ⟨ch, hch, ?_⟩
      rw [hcl, hstop]
      simp
    · intro q hq
      simp at hq
  · have hstop' : obj.stop = false := by simpa using hstop
    cases hout : obj.out with
    | none =>
      have h1 : Element.Stop e m =
          { mem := { m with elements := mapDelete m.elements obj.id }
            events := [.lock, .deleteElement obj.id, .unlock, .readStop e]
            status := .returned () } := by
        simp [Element.Stop, he, hstop', hout]
      have h2 : Element.Stop e { m with elements := mapDelete m.elements obj.id } =
          { mem := { m with elements := mapDelete m.elements obj.id }
            events := [.lock, .deleteElement obj.id, .unlock, .readStop e]
            status := .returned () } := by
        simp [Element.Stop, he, hstop', hout, mapDelete_idem]
      rw [h1, h2]
      refine ⟨rfl, rfl, ?_, ?_⟩
      · intro c hc
        cases hc
      · intro q hq
        simp at hq
    | some c =>
      obtain ⟨ch, hch, hcl⟩ := hsome c hout
      rw [hstop'] at hcl
      have hclose : ch.close = some { ch with closed := true } := by
        simp [Chan.close, hcl]
      have h1 : Element.Stop e m =
          { mem := { m with
              elements := mapDelete m.elements obj.id
              elementObjs := m.elementObjs.set e { obj with stop := true }
              bufChans := m.bufChans.set c { ch with closed := true } }
            events := [.lock, .deleteElement obj.id, .unlock, .readStop e, .writeStop e,
              .close (.out c)]
            status := .returned () } := by
        simp [Element.Stop, he, hstop', hout, hch, hclose]
      have h2 : Element.Stop e { m with
              elements := mapDelete m.elements obj.id
              elementObjs := m.elementObjs.set e { obj with stop := true }
              bufChans := m.bufChans.set c { ch with closed := true } } =
          { mem := { m with
              elements := mapDelete m.elements obj.id
              elementObjs := m.elementObjs.set e { obj with stop := true }
              bufChans := m.bufChans.set c { ch with closed := true } }
            events := [.lock, .deleteElement obj.id, .unlock, .readStop e]
            status := .returned () } := by
        simp [Element.Stop, getElem?_set_self_of_some he, mapDelete_idem]
      rw [h1, h2]
      refine ⟨rfl, rfl, ?_, ?_⟩
      · intro c' hc'
        cases hc'
        refine ⟨ch, hch, ?_⟩
        rw [hcl]
        simp [List.count_cons]
      · intro q hq
        simp at hq
        exact ⟨c, rfl, hq⟩

/-- C4. `Element.Stop` is idempotent. For every element of every state left by a sequence of
operations from the initial state: the first `Stop` returns; the second `Stop` returns,
leaves the whole memory (registry, `stop` flag, queue) as the first left it, and only
locks, deletes, unlocks and reads the flag; over the two calls the element's queue is
closed exactly once if it existed and was open, not at all if it was already closed, and
nothing is closed if `Poll` was never called. -/
theorem Element_Stop_idempotent (ops : List Op) (e : Nat) (obj : Element)
    (he : (run init ops).mem.elementObjs[e]? = some obj) :
    (Element.Stop e (run init ops).mem).status = .returned () ∧
    Element.Stop e (Element.Stop e (run init ops).mem).mem =
      { mem := (Element.Stop e (run init ops).mem).mem
        events := [.lock, .deleteElement obj.id, .unlock, .readStop e]
        status := .returned () } ∧
    (∀ c : Nat, obj.out = some c → ∃ ch : Chan Bytes,
      (run init ops).mem.bufChans[c]? = some ch ∧
      List.count (Ev.close (.out c))
        ((Element.Stop e (run init ops).mem).events ++
          (Element.Stop e (Element.Stop e (run init ops).mem).mem).events) =
        if ch.closed then 0 else 1) ∧
    (∀ q : Queue, Ev.close q ∈
        (Element.Stop e (run init ops).mem).events ++
          (Element.Stop e (Element.Stop e (run init ops).mem).mem).events →
      ∃ c : Nat, obj.out = some c ∧ q = .out c) :=
  Element_Stop_twice (run init ops).mem (Inv_run ops init Inv_init).1 e obj he

/-- C4 at a polled, running element: the second `Stop` changes nothing. -/
theorem Element_Stop_idempotent_witness :
    Element.Stop 0 (Element.Stop 0
        (run init [.New (some 1), .FindElement 0 (some 2), .Poll 0]).mem).mem =
      { mem := (Element.Stop 0
          (run init [.New (some 1), .FindElement 0 (some 2), .Poll 0]).mem).mem
        events := [.lock, .deleteElement 10002, .unlock, .readStop 0]
        status := .returned () } :=
  (Element_Stop_idempotent [.New (some 1), .FindElement 0 (some 2), .Poll 0] 0
    { element := 2, out := some 0, stop := false, id := 10002 } (by rfl)).2.1

/-- C6. Two successive calls of `Poll` on an element return the same queue; the second
call leaves the memory as it is and performs no native call. On an element that was never
polled the first call creates one queue of capacity 10, stores it in `out` and arms the
native pull path once; on an element that has a queue the first call already changes
nothing. -/
theorem Poll_twice_same_queue (m : Mem) (e : Nat) (obj : Element)
    (he : m.elementObjs[e]? = some obj) :
    (∃ c : Nat, (Element.Poll e m).status = .returned c ∧
      Element.Poll e (Element.Poll e m).mem =
        { mem := (Element.Poll e m).mem, events := [], status := .returned c }) ∧
    (obj.out = none →
      Element.Poll e m =
        { mem := { m with
            bufChans := m.bufChans ++ [{ cap := 10, buf := [], closed := false }]
            elementObjs := m.elementObjs.set e { obj with out := some m.bufChans.length } }
          events := [.native (.gstreamer_element_pull_buffer obj.element (cInt obj.id))]
          status := .returned m.bufChans.length }) ∧
    (∀ c : Nat, obj.out = some c →
      Element.Poll e m = { mem := m, events := [], status := .returned c }) := by
  cases hout : obj.out with
  | none =>
    have h1 : Element.Poll e m =
        { mem := { m with
            bufChans := m.bufChans ++ [{ cap := 10, buf := [], closed := false }]
            elementObjs := m.elementObjs.set e { obj with out := some m.bufChans.length } }
          events := [.native (.gstreamer_element_pull_buffer obj.element (cInt obj.id))]
          status := .returned m.bufChans.length } := by
      simp [Element.Poll, he, hout]
    refine ⟨⟨m.bufChans.length, by rw [h1], ?_⟩, fun _ => h1, fun c hc => by cases hc⟩
    rw [h1]
    simp [Element.Poll, getElem?_set_self_of_some he]
  | some c =>
    have h1 : Element.Poll e m = { mem := m, events := [], status := .returned c } := by
      simp [Element.Poll, he, hout]
    refine ⟨⟨c, by rw [h1], ?_⟩, fun hn => (by cases hn), fun c' hc' => ?_⟩
    · rw [h1]
      exact h1
    · cases hc'
      exact h1

/-- C6 at a freshly found element: both calls return queue 0. -/
theorem Poll_twice_same_queue_witness :
    ∃ c : Nat,
      (Element.Poll 0 (run init [.New (some 1), .FindElement 0 (some 2)]).mem).status =
        .returned c ∧
      Element.Poll 0 (Element.Poll 0
          (run init [.New (some 1), .FindElement 0 (some 2)]).mem).mem =
        { mem := (Element.Poll 0 (run init [.New (some 1), .FindElement 0 (some 2)]).mem).mem
          events := [], status := .returned c } :=
  (Poll_twice_same_queue (run init [.New (some 1), .FindElement 0 (some 2)]).mem 0
    { element := 2, out := none, stop := false, id := 10002 } (by rfl)).1

/-! ## Delivery of buffers -/

theorem closedAt_set {α : Type} {chans : List (Chan α)} {c c' : Nat} {ch0 ch1 : Chan α}
    (h : closedAt chans c) (h0 : chans[c']? = some ch0)
    (hcl : ch0.closed = true → ch1.closed = true) : closedAt (chans.set c' ch1) c := by
  obtain ⟨ch, hch, hclosed⟩ := h
  by_cases hcc : c' = c
  · subst hcc
    rw [h0] at hch
    cases hch
    exact ⟨ch1, getElem?_set_self_of_some h0, hcl hclosed⟩
  · exact ⟨ch, by rw [List.getElem?_set_ne hcc]; exact hch, hclosed⟩

theorem closedAt_append {α : Type} {chans : List (Chan α)} {c : Nat} (l : List (Chan α))
    (h : closedAt chans c) : closedAt (chans ++ l) c := by
  obtain ⟨ch, hch, hclosed⟩ := h
  exact ⟨ch, getElem?_append_of_some _ _ _ _ hch, hclosed⟩

theorem closedAt_hostRecv {α : Type} {chans chans' : List (Chan α)} {c c' : Nat}
    (h : closedAt chans c) (hr : hostRecv chans c' = some chans') : closedAt chans' c := by
  rcases hostRecv_some hr with rfl | ⟨ch, ch', v, hch, hrecv, rfl⟩
  · exact h
  · exact closedAt_set h hch (fun hcl => by rw [(Chan.recv_some hrecv).2.1]; exact hcl)

theorem closedAt_out_step (op : Op) (m : Mem) (c : Nat) (h : closedAt m.bufChans c) :
    closedAt (step op m).mem.bufChans c := by
  cases op with
  | New cpipeline =>
    simp only [step, Outcome.void_mem, New]
    split <;> exact h
  | PullMessage p =>
    simp only [step, Outcome.void_mem, Pipeline.PullMessage]
    split <;> exact h
  | FindElement p g =>
    simp only [step, Outcome.void_mem, Pipeline.FindElement]
    split
    · exact h
    · split <;> exact h
  | Poll e =>
    simp only [step, Outcome.void_mem, Element.Poll]
    split
    · exact h
    · split
      · exact closedAt_append _ h
      · exact h
  | PipelineStop p =>
    simp only [step, Pipeline.Stop]
    split
    · exact h
    · split
      · exact h
      · split
        · exact h
        · split <;> exact h
  | ElementStop e =>
    simp only [step, Element.Stop]
    split
    · exact h
    · split
      · exact h
      · split
        · exact h
        · split
          · exact h
          · rename_i ch hch
            split
            · exact h
            · rename_i ch' hcl
              exact closedAt_set h hch (fun _ => by rw [(Chan.close_some hcl).2])
  | goHandleSinkBuffer b id =>
    simp only [step, goHandleSinkBuffer]
    split
    · exact h
    · split
      · exact h
      · split
        · exact h
        · split
          · exact h
          · split
            · exact h
            · rename_i ch hch
              split
              · exact h
              · exact h
              · rename_i ch' hs
                exact closedAt_set h hch (fun hcl => by rw [(Chan.send_sent hs).2.2]; exact hcl)
  | goHandleSinkEOS id =>
    simp only [step, goHandleSinkEOS]
    split
    · exact h
    · split
      · exact h
      · split
        · exact h
        · split
          · exact h
          · split
            · exact h
            · rename_i ch hch
              split
              · exact h
              · rename_i ch' hcl
                exact closedAt_set h hch (fun _ => by rw [(Chan.close_some hcl).2])
  | goHandleBusMessage msg id =>
    simp only [step, goHandleBusMessage]
    split
    · exact h
    · split
      · exact h
      · split
        · exact h
        · split
          · exact h
          · split <;> exact h
  | recvOut c' =>
    simp only [step]
    split
    · rename_i chans hr
      exact closedAt_hostRecv h hr
    · exact h
  | recvMessages c' =>
    simp only [step]
    split <;> exact h

theorem closedAt_out_run (ops : List Op) (c : Nat) :
    ∀ m : Mem, closedAt m.bufChans c → closedAt (run m ops).mem.bufChans c := by
  induction ops with
  | nil => intro m h; exact h
  | cons op rest ih =>
    intro m h
    have hs := closedAt_out_step op m c h
    simp only [run]
    split
    · exact ih _ hs
    · exact hs

theorem goHandleSinkBuffer_closed (b : Bytes) (id : Int) (m : Mem) (hinv : Inv m) :
    (goHandleSinkBuffer b id m).status ≠ .panicked .sendOnClosedChannel ∧
    ∀ (c : Nat) (ch : Chan Bytes), m.bufChans[c]? = some ch → ch.closed = true →
      (goHandleSinkBuffer b id m).mem.bufChans[c]? = some ch := by
  unfold goHandleSinkBuffer
  split
  · exact ⟨by simp, fun c ch h _ => h⟩
  · rename_i e _
    split
    · exact ⟨by simp, fun c ch h _ => h⟩
    · rename_i obj he
      split
      · exact ⟨by simp, fun c ch h _ => h⟩
      · rename_i c0 hout
        split
        · exact ⟨by simp, fun c ch h _ => h⟩
        · rename_i hstop
          obtain ⟨ch0, hch0, hcl0⟩ := (hinv.1.1 e obj he).2 c0 hout
          simp only [hch0]
          split
          · rename_i hs
            have := Chan.send_panicClosed hs
            rw [hcl0] at this
            exact absurd this hstop
          · exact ⟨by simp, fun c ch h _ => h⟩
          · rename_i ch' hs
            refine ⟨by simp, fun c ch h hcl => ?_⟩
            have hne : c0 ≠ c := by
              intro hcc
              subst hcc
              rw [hch0] at h
              cases h
              rw [(Chan.send_sent hs).1] at hcl
              cases hcl
            simp only [List.getElem?_set_ne hne]
            exact h

theorem goHandleBusMessage_closed (msg : Handle) (id : Int) (m : Mem) (hinv : Inv m) :
    (goHandleBusMessage msg id m).status ≠ .panicked .sendOnClosedChannel ∧
    ∀ (c : Nat) (ch : Chan Message), m.msgChans[c]? = some ch → ch.closed = true →
      (goHandleBusMessage msg id m).mem.msgChans[c]? = some ch := by
  unfold goHandleBusMessage
  dsimp only
  split
  · exact ⟨by simp, fun c ch h _ => h⟩
  · rename_i p hreg
    obtain ⟨obj, hp, _, hopen⟩ := hinv.2.1 id p hreg
    simp only [hp]
    split
    · exact ⟨by simp, fun c ch h _ => h⟩
    · rename_i c0 hc0
      obtain ⟨ch0, hch0, hcl0⟩ := hopen c0 hc0
      simp only [hch0]
      split
      · rename_i hs
        have := Chan.send_panicClosed hs
        rw [hcl0] at this
        cases this
      · exact ⟨by simp, fun c ch h _ => h⟩
      · rename_i ch' hs
        refine ⟨by simp, fun c ch h hcl => ?_⟩
        have hne : c0 ≠ c := by
          intro hcc
          subst hcc
          rw [hch0] at h
          cases h
          rw [hcl0] at hcl
          cases hcl
        simp only [List.getElem?_set_ne hne]
        exact h

theorem void_status_ne {α : Type} (o : Outcome α) (p : Panic)
    (h : o.status ≠ .panicked p) : o.void.status ≠ .panicked p := by
  unfold Outcome.void
  cases hs : o.status with
  | returned v => simp
  | panicked q =>
    simp only [ne_eq, Status.panicked.injEq]
    intro hq
    subst hq
    exact h hs
  | blocked => simp

theorem step_no_send_on_closed (op : Op) (m : Mem) (hinv : Inv m) :
    (step op m).status ≠ .panicked .sendOnClosedChannel := by
  cases op with
  | New cpipeline =>
    simp only [step]
    apply void_status_ne
    unfold New
    split <;> simp
  | PullMessage p =>
    simp only [step]
    apply void_status_ne
    unfold Pipeline.PullMessage
    split <;> simp
  | FindElement p g =>
    simp only [step]
    apply void_status_ne
    unfold Pipeline.FindElement
    split
    · simp
    · split <;> simp
  | Poll e =>
    simp only [step]
    apply void_status_ne
    unfold Element.Poll
    split
    · simp
    · split <;> simp
  | PipelineStop p =>
    simp only [step, Pipeline.Stop]
    split
    · simp
    · split
      · simp
      · split
        · simp
        · split <;> simp
  | ElementStop e =>
    simp only [step, Element.Stop]
    split
    · simp
    · split
      · simp
      · split
        · simp
        · split
          · simp
          · split <;> simp
  | goHandleSinkBuffer b id => exact (goHandleSinkBuffer_closed b id m hinv).1
  | goHandleSinkEOS id =>
    simp only [step, goHandleSinkEOS]
    split
    · simp
    · split
      · simp
      · split
        · simp
        · split
          · simp
          · split
            · simp
            · split <;> simp
  | goHandleBusMessage msg id => exact (goHandleBusMessage_closed msg id m hinv).1
  | recvOut c =>
    simp only [step]
    split <;> simp
  | recvMessages c =>
    simp only [step]
    split <;> simp

theorem run_no_send_on_closed (ops : List Op) :
    ∀ m : Mem, Inv m → (run m ops).status ≠ .panicked .sendOnClosedChannel := by
  induction ops with
  | nil => intro m _; simp [run]
  | cons op rest ih =>
    intro m h
    have hs := step_no_send_on_closed op m h
    have hi := Inv_step op m h
    simp only [run]
    split
    · exact ih _ hi
    · exact hs

theorem Element_Stop_closes (m : Mem) (hinv : Inv m) (e c : Nat) (obj : Element)
    (he : m.elementObjs[e]? = some obj) (hout : obj.out = some c) :
    closedAt (Element.Stop e m).mem.bufChans c := by
  obtain ⟨ch, hch, hcl⟩ := (hinv.1.1 e obj he).2 c hout
  by_cases hstop : obj.stop = true
  · simp only [Element.Stop, he, hstop, if_true]
    exact ⟨ch, hch, by rw [hcl, hstop]⟩
  · have hstop' : obj.stop = false := by simpa using hstop
    rw [hstop'] at hcl
    simp only [Element.Stop, he, hstop', hout, hch, Chan.close, hcl, Bool.false_eq_true,
      if_false]
    exact ⟨{ ch with closed := true }, getElem?_set_self_of_some hch, rfl⟩

theorem goHandleSinkEOS_closes (m : Mem) (hinv : Inv m) (id : Int) (e c : Nat)
    (obj : Element) (hreg : mapGet m.elements id = some e)
    (he : m.elementObjs[e]? = some obj) (hout : obj.out = some c) :
    closedAt (goHandleSinkEOS id m).mem.bufChans c := by
  obtain ⟨ch, hch, hcl⟩ := (hinv.1.1 e obj he).2 c hout
  by_cases hstop : obj.stop = true
  · simp only [goHandleSinkEOS, hreg, he, hout, hstop, if_true]
    exact ⟨ch, hch, by rw [hcl, hstop]⟩
  · have hstop' : obj.stop = false := by simpa using hstop
    rw [hstop'] at hcl
    simp only [goHandleSinkEOS, hreg, he, hstop', hout, hch, Chan.close, hcl,
      Bool.false_eq_true, if_false]
    exact ⟨{ ch with closed := true }, getElem?_set_self_of_some hch, rfl⟩

theorem buffer_after_close (m : Mem) (hinv : Inv m) (c : Nat) (hc : closedAt m.bufChans c)
    (ops2 : List Op) (b : Bytes) (id : Int) :
    (goHandleSinkBuffer b id (run m ops2).mem).mem.bufChans[c]? =
      (run m ops2).mem.bufChans[c]? := by
  obtain ⟨ch, hch, hcl⟩ := closedAt_out_run ops2 c m hc
  rw [(goHandleSinkBuffer_closed b id (run m ops2).mem (Inv_run ops2 m hinv)).2 c ch hch hcl,
    hch]

/-! ## Identifiers -/

theorem issuedIds_append (l l' : List Ev) :
    issuedIds (l ++ l') = issuedIds l ++ issuedIds l' := by
  induction l with
  | nil => rfl
  | cons ev t ih => cases ev <;> simp [issuedIds, ih]

theorem goInt_succ (x : Int) (hlo : -9223372036854775808 ≤ x + 1)
    (hhi : x + 1 < 9223372036854775808) : goInt (x + 1) = x + 1 := by
  unfold goInt
  omega

theorem IdInv_init : IdInv init := by
  unfold IdInv init mapKeys
  simp

theorem mem_set_pipeline {l : List Pipeline} {p : Nat} {obj x : Pipeline}
    (hp : l[p]? = some obj) (hid : x.id = obj.id) :
    ∀ o ∈ l.set p x, ∃ o' ∈ l, o'.id = o.id := by
  intro o ho
  rcases List.mem_or_eq_of_mem_set ho with h | h
  · exact ⟨o, h, rfl⟩
  · subst h
    exact ⟨obj, List.getElem?_mem hp, hid.symm⟩

theorem mem_set_element {l : List Element} {e : Nat} {obj x : Element}
    (he : l[e]? = some obj) (hid : x.id = obj.id) :
    ∀ o ∈ l.set e x, ∃ o' ∈ l, o'.id = o.id := by
  intro o ho
  rcases List.mem_or_eq_of_mem_set ho with h | h
  · exact ⟨o, h, rfl⟩
  · subst h
    exact ⟨obj, List.getElem?_mem he, hid.symm⟩

theorem Quiet.build {m m' : Mem} (hc : m'.gstreamerIdGenerate = m.gstreamerIdGenerate)
    (hp : m'.pipelines = m.pipelines ∨ ∃ id : Int, m'.pipelines = mapDelete m.pipelines id)
    (he : m'.elements = m.elements ∨ ∃ id : Int, m'.elements = mapDelete m.elements id)
    (hpo : m'.pipelineObjs = m.pipelineObjs ∨ ∃ (p : Nat) (obj x : Pipeline),
      m'.pipelineObjs = m.pipelineObjs.set p x ∧ m.pipelineObjs[p]? = some obj ∧ x.id = obj.id)
    (heo : m'.elementObjs = m.elementObjs ∨ ∃ (e : Nat) (obj x : Element),
      m'.elementObjs = m.elementObjs.set e x ∧ m.elementObjs[e]? = some obj ∧ x.id = obj.id) :
    Quiet m m' := by
  refine ⟨hc, ?_, ?_, ?_, ?_⟩
  · rcases hp with h | ⟨id, h⟩
    · rw [h]; exact fun _ hk => hk
    · rw [h]; exact fun k hk => ((mem_mapKeys_mapDelete _ _ _).mp hk).1
  · rcases he with h | ⟨id, h⟩
    · rw [h]; exact fun _ hk => hk
    · rw [h]; exact fun k hk => ((mem_mapKeys_mapDelete _ _ _).mp hk).1
  · rcases hpo with h | ⟨p, obj, x, h3, h1, h2⟩
    · rw [h]; exact fun o ho => ⟨o, ho, rfl⟩
    · rw [h3]; exact mem_set_pipeline h1 h2
  · rcases heo with h | ⟨e, obj, x, h3, h1, h2⟩
    · rw [h]; exact fun o ho => ⟨o, ho, rfl⟩
    · rw [h3]; exact mem_set_element h1 h2

theorem Quiet.same {m m' : Mem} (hc : m'.gstreamerIdGenerate = m.gstreamerIdGenerate)
    (hp : m'.pipelines = m.pipelines) (he : m'.elements = m.elements)
    (hpo : m'.pipelineObjs = m.pipelineObjs) (heo : m'.elementObjs = m.elementObjs) :
    Quiet m m' :=
  Quiet.build hc (Or.inl hp) (Or.inl he) (Or.inl hpo) (Or.inl heo)

theorem IdInv_of_quiet {m m' : Mem} (h : IdInv m) (hq : Quiet m m') : IdInv m' := by
  obtain ⟨h1, h2, h3, h4, h5⟩ := h
  obtain ⟨q0, q1, q2, q3, q4⟩ := hq
  refine ⟨?_, ?_, ?_, ?_, ?_⟩
  · intro k hk; rw [q0]; exact h1 k (q1 k hk)
  · intro k hk; rw [q0]; exact h2 k (q2 k hk)
  · intro k hk hk'; exact h3 k (q1 k hk) (q2 k hk')
  · intro obj ho
    obtain ⟨o, hom, hid⟩ := q3 obj ho
    rw [q0, ← hid]; exact h4 o hom
  · intro obj ho
    obtain ⟨o, hom, hid⟩ := q4 obj ho
    rw [q0, ← hid]; exact h5 o hom

theorem quiet_PullMessage (p : Nat) (m : Mem) :
    Quiet m (Pipeline.PullMessage p m).mem ∧ issuedIds (Pipeline.PullMessage p m).events = [] := by
  unfold Pipeline.PullMessage
  split
  · exact ⟨Quiet.same rfl rfl rfl rfl rfl, rfl⟩
  · rename_i obj hp
    exact ⟨Quiet.build rfl (Or.inl rfl) (Or.inl rfl) (Or.inr ⟨p, obj, _, rfl, hp, rfl⟩)
      (Or.inl rfl), rfl⟩

theorem quiet_Poll (e : Nat) (m : Mem) :
    Quiet m (Element.Poll e m).mem ∧ issuedIds (Element.Poll e m).events = [] := by
  unfold Element.Poll
  split
  · exact ⟨Quiet.same rfl rfl rfl rfl rfl, rfl⟩
  · rename_i obj he
    split
    · exact ⟨Quiet.build rfl (Or.inl rfl) (Or.inl rfl) (Or.inl rfl)
        (Or.inr ⟨e, obj, _, rfl, he, rfl⟩), rfl⟩
    · exact ⟨Quiet.same rfl rfl rfl rfl rfl, rfl⟩

theorem quiet_PipelineStop (p : Nat) (m : Mem) :
    Quiet m (Pipeline.Stop p m).mem ∧ issuedIds (Pipeline.Stop p m).events = [] := by
  unfold Pipeline.Stop
  split
  · exact ⟨Quiet.same rfl rfl rfl rfl rfl, rfl⟩
  · rename_i obj hp
    dsimp only
    split
    · exact ⟨Quiet.build rfl (Or.inr ⟨_, rfl⟩) (Or.inl rfl) (Or.inl rfl) (Or.inl rfl), rfl⟩
    · split
      · exact ⟨Quiet.build rfl (Or.inr ⟨_, rfl⟩) (Or.inl rfl) (Or.inl rfl) (Or.inl rfl), rfl⟩
      · split
        · exact ⟨Quiet.build rfl (Or.inr ⟨_, rfl⟩) (Or.inl rfl) (Or.inl rfl) (Or.inl rfl),
            rfl⟩
        · exact ⟨Quiet.build rfl (Or.inr ⟨_, rfl⟩) (Or.inl rfl) (Or.inl rfl) (Or.inl rfl),
            rfl⟩

theorem quiet_ElementStop (e : Nat) (m : Mem) :
    Quiet m (Element.Stop e m).mem ∧ issuedIds (Element.Stop e m).events = [] := by
  unfold Element.Stop
  split
  · exact ⟨Quiet.same rfl rfl rfl rfl rfl, rfl⟩
  · rename_i obj he
    dsimp only
    split
    · exact ⟨Quiet.build rfl (Or.inl rfl) (Or.inr ⟨_, rfl⟩) (Or.inl rfl) (Or.inl rfl), rfl⟩
    · split
      · exact ⟨Quiet.build rfl (Or.inl rfl) (Or.inr ⟨_, rfl⟩) (Or.inl rfl) (Or.inl rfl), rfl⟩
      · split
        · exact ⟨Quiet.build rfl (Or.inl rfl) (Or.inr ⟨_, rfl⟩) (Or.inl rfl)
            (Or.inr ⟨e, obj, _, rfl, he, rfl⟩), rfl⟩
        · split
          · exact ⟨Quiet.build rfl (Or.inl rfl) (Or.inr ⟨_, rfl⟩) (Or.inl rfl)
              (Or.inr ⟨e, obj, _, rfl, he, rfl⟩), rfl⟩
          · exact ⟨Quiet.build rfl (Or.inl rfl) (Or.inr ⟨_, rfl⟩) (Or.inl rfl)
              (Or.inr ⟨e, obj, _, rfl, he, rfl⟩), rfl⟩

theorem quiet_goHandleSinkBuffer (b : Bytes) (id : Int) (m : Mem) :
    Quiet m (goHandleSinkBuffer b id m).mem ∧
      issuedIds (goHandleSinkBuffer b id m).events = [] := by
  unfold goHandleSinkBuffer
  repeat' split
  all_goals exact ⟨Quiet.same rfl rfl rfl rfl rfl, rfl⟩

theorem quiet_goHandleSinkEOS (id : Int) (m : Mem) :
    Quiet m (goHandleSinkEOS id m).mem ∧ issuedIds (goHandleSinkEOS id m).events = [] := by
  unfold goHandleSinkEOS
  split
  · exact ⟨Quiet.same rfl rfl rfl rfl rfl, rfl⟩
  · rename_i e _
    split
    · exact ⟨Quiet.same rfl rfl rfl rfl rfl, rfl⟩
    · rename_i obj he
      split
      · exact ⟨Quiet.same rfl rfl rfl rfl rfl, rfl⟩
      · split
        · exact ⟨Quiet.same rfl rfl rfl rfl rfl, rfl⟩
        · dsimp only
          split
          · exact ⟨Quiet.build rfl (Or.inl rfl) (Or.inl rfl) (Or.inl rfl)
              (Or.inr ⟨e, obj, _, rfl, he, rfl⟩), rfl⟩
          · split
            · exact ⟨Quiet.build rfl (Or.inl rfl) (Or.inl rfl) (Or.inl rfl)
                (Or.inr ⟨e, obj, _, rfl, he, rfl⟩), rfl⟩
            · exact ⟨Quiet.build rfl (Or.inl rfl) (Or.inl rfl) (Or.inl rfl)
                (Or.inr ⟨e, obj, _, rfl, he, rfl⟩), rfl⟩

theorem quiet_goHandleBusMessage (msg : Handle) (id : Int) (m : Mem) :
    Quiet m (goHandleBusMessage msg id m).mem ∧
      issuedIds (goHandleBusMessage msg id m).events = [] := by
  unfold goHandleBusMessage
  dsimp only
  repeat' split
  all_goals exact ⟨Quiet.same rfl rfl rfl rfl rfl, rfl⟩

/-- What one step does to the registry: nothing is registered, or exactly the id
`counter + 1` is (when that does not overflow). -/
theorem step_registry (op : Op) (m : Mem) (h : IdInv m)
    (hlo : -9223372036854775808 ≤ m.gstreamerIdGenerate + 1)
    (hhi : m.gstreamerIdGenerate + (registers op : Int) < 9223372036854775808) :
    IdInv (step op m).mem ∧
    ((step op m).mem.gstreamerIdGenerate = m.gstreamerIdGenerate ∧
        issuedIds (step op m).events = [] ∧
        (∀ k ∈ mapKeys (step op m).mem.pipelines, k ∈ mapKeys m.pipelines) ∨
      (step op m).mem.gstreamerIdGenerate = m.gstreamerIdGenerate + (registers op : Int) ∧
        issuedIds (step op m).events = [m.gstreamerIdGenerate + 1] ∧
        (∀ k ∈ mapKeys (step op m).mem.pipelines,
          k = m.gstreamerIdGenerate + 1 ∨ k ∈ mapKeys m.pipelines) ∧
        registers op = 1) := by
  have quiet : ∀ m' : Mem, ∀ evs : List Ev, Quiet m m' ∧ issuedIds evs = [] →
      IdInv m' ∧
      (m'.gstreamerIdGenerate = m.gstreamerIdGenerate ∧ issuedIds evs = [] ∧
          (∀ k ∈ mapKeys m'.pipelines, k ∈ mapKeys m.pipelines) ∨
        m'.gstreamerIdGenerate = m.gstreamerIdGenerate + (registers op : Int) ∧
          issuedIds evs = [m.gstreamerIdGenerate + 1] ∧
          (∀ k ∈ mapKeys m'.pipelines,
            k = m.gstreamerIdGenerate + 1 ∨ k ∈ mapKeys m.pipelines) ∧
          registers op = 1) :=
    fun m' evs hq => ⟨IdInv_of_quiet h hq.1, Or.inl ⟨hq.1.1, hq.2, hq.1.2.1⟩⟩
  obtain ⟨h1, h2, h3, h4, h5⟩ := h
  cases op with
  | New cpipeline =>
    cases cpipeline with
    | none => exact quiet _ _ ⟨Quiet.same rfl rfl rfl rfl rfl, rfl⟩
    | some hd =>
      have hg := goInt_succ m.gstreamerIdGenerate hlo (by simpa [registers] using hhi)
      have hstep : (step (.New (some hd)) m).mem = { m with
          gstreamerIdGenerate := m.gstreamerIdGenerate + 1
          pipelineObjs := m.pipelineObjs ++
            [{ pipeline := hd, messages := none, id := m.gstreamerIdGenerate + 1 }]
          pipelines := mapSet m.pipelines (m.gstreamerIdGenerate + 1) m.pipelineObjs.length } := by
        simp only [step, Outcome.void_mem, New, hg]
      have hev : issuedIds (step (.New (some hd)) m).events = [m.gstreamerIdGenerate + 1] := by
        simp only [step, Outcome.void_events, New, hg, issuedIds]
      rw [hstep, hev]
      unfold IdInv
      dsimp only
      refine ⟨⟨?_, ?_, ?_, ?_, ?_⟩, Or.inr ⟨rfl, rfl, ?_, rfl⟩⟩
      · intro k hk
        rcases (mem_mapKeys_mapSet _ _ _ _).mp hk with rfl | hk
        · exact le_refl _
        · have := h1 k hk
          omega
      · intro k hk
        have := h2 k hk
        omega
      · intro k hk hk'
        rcases (mem_mapKeys_mapSet _ _ _ _).mp hk with rfl | hk
        · have := h2 _ hk'
          omega
        · exact h3 k hk hk'
      · intro obj ho
        rcases List.mem_append.mp ho with ho | ho
        · have := h4 obj ho
          omega
        · simp only [List.mem_singleton] at ho
          subst ho
          exact le_refl _
      · intro obj ho
        have := h5 obj ho
        omega
      · intro k hk
        exact (mem_mapKeys_mapSet _ _ _ _).mp hk
  | PullMessage p => exact quiet _ _ (quiet_PullMessage p m)
  | FindElement p g =>
    cases hp : m.pipelineObjs[p]? with
    | none =>
      have hstep : (step (.FindElement p g) m).mem = m := by
        simp only [step, Outcome.void_mem, Pipeline.FindElement, hp]
      have hev : issuedIds (step (.FindElement p g) m).events = [] := by
        simp only [step, Outcome.void_events, Pipeline.FindElement, hp, issuedIds]
      rw [hstep]
      exact quiet _ _ ⟨Quiet.same rfl rfl rfl rfl rfl, hev⟩
    | some pobj =>
      cases g with
      | none =>
        have hstep : (step (.FindElement p none) m).mem = m := by
          simp only [step, Outcome.void_mem, Pipeline.FindElement, hp]
        have hev : issuedIds (step (.FindElement p none) m).events = [] := by
          simp only [step, Outcome.void_events, Pipeline.FindElement, hp, issuedIds]
        rw [hstep]
        exact quiet _ _ ⟨Quiet.same rfl rfl rfl rfl rfl, hev⟩
      | some gel =>
        have hg := goInt_succ m.gstreamerIdGenerate hlo (by simpa [registers] using hhi)
        have hstep : (step (.FindElement p (some gel)) m).mem = { m with
            gstreamerIdGenerate := m.gstreamerIdGenerate + 1
            elementObjs := m.elementObjs ++
              [{ element := gel, out := none, stop := false, id := m.gstreamerIdGenerate + 1 }]
            elements := mapSet m.elements (m.gstreamerIdGenerate + 1) m.elementObjs.length } := by
          simp only [step, Outcome.void_mem, Pipeline.FindElement, hp, hg]
        have hev : issuedIds (step (.FindElement p (some gel)) m).events =
            [m.gstreamerIdGenerate + 1] := by
          simp only [step, Outcome.void_events, Pipeline.FindElement, hp, hg, issuedIds]
        rw [hstep, hev]
        unfold IdInv
        dsimp only
        refine ⟨⟨?_, ?_, ?_, ?_, ?_⟩, Or.inr ⟨rfl, rfl, fun k hk => Or.inr hk, rfl⟩⟩
        · intro k hk
          have := h1 k hk
          omega
        · intro k hk
          rcases (mem_mapKeys_mapSet _ _ _ _).mp hk with rfl | hk
          · exact le_refl _
          · have := h2 k hk
            omega
        · intro k hk hk'
          rcases (mem_mapKeys_mapSet _ _ _ _).mp hk' with rfl | hk'
          · have := h1 _ hk
            omega
          · exact h3 k hk hk'
        · intro obj ho
          have := h4 obj ho
          omega
        · intro obj ho
          rcases List.mem_append.mp ho with ho | ho
          · have := h5 obj ho
            omega
          · simp only [List.mem_singleton] at ho
            subst ho
            exact le_refl _
  | Poll e => exact quiet _ _ (quiet_Poll e m)
  | PipelineStop p => exact quiet _ _ (quiet_PipelineStop p m)
  | ElementStop e => exact quiet _ _ (quiet_ElementStop e m)
  | goHandleSinkBuffer b id => exact quiet _ _ (quiet_goHandleSinkBuffer b id m)
  | goHandleSinkEOS id => exact quiet _ _ (quiet_goHandleSinkEOS id m)
  | goHandleBusMessage msg id => exact quiet _ _ (quiet_goHandleBusMessage msg id m)
  | recvOut c =>
    simp only [step]
    split
    · exact quiet _ _ ⟨Quiet.same rfl rfl rfl rfl rfl, rfl⟩
    · exact quiet _ _ ⟨Quiet.same rfl rfl rfl rfl rfl, rfl⟩
  | recvMessages c =>
    simp only [step]
    split
    · exact quiet _ _ ⟨Quiet.same rfl rfl rfl rfl rfl, rfl⟩
    · exact quiet _ _ ⟨Quiet.same rfl rfl rfl rfl rfl, rfl⟩

theorem run_registry (ops : List Op) :
    ∀ m : Mem, IdInv m → -9223372036854775808 ≤ m.gstreamerIdGenerate + 1 →
      m.gstreamerIdGenerate + (registrations ops : Int) < 9223372036854775808 →
      IdInv (run m ops).mem ∧
      m.gstreamerIdGenerate ≤ (run m ops).mem.gstreamerIdGenerate ∧
      (run m ops).mem.gstreamerIdGenerate ≤ m.gstreamerIdGenerate + (registrations ops : Int) ∧
      (∀ id ∈ issuedIds (run m ops).events,
        m.gstreamerIdGenerate < id ∧ id ≤ (run m ops).mem.gstreamerIdGenerate) ∧
      List.Pairwise (fun a b => a < b) (issuedIds (run m ops).events) ∧
      (∀ pid : Int, pid ≤ m.gstreamerIdGenerate → pid ∉ mapKeys m.pipelines →
        pid ∉ mapKeys (run m ops).mem.pipelines) := by
  induction ops with
  | nil =>
    intro m h _ _
    simp only [run, issuedIds, registrations, Int.ofNat_zero, add_zero]
    exact ⟨h, le_refl _, by simp, by simp, List.Pairwise.nil, fun _ _ hk => hk⟩
  | cons op rest ih =>
    intro m h hlo hhi
    simp only [registrations, Nat.cast_add] at hhi ⊢
    obtain ⟨hinv1, hreg⟩ := step_registry op m h hlo (by omega)
    have hc1 : m.gstreamerIdGenerate ≤ (step op m).mem.gstreamerIdGenerate ∧
        (step op m).mem.gstreamerIdGenerate ≤ m.gstreamerIdGenerate + (registers op : Int) := by
      rcases hreg with ⟨hc, _, _⟩ | ⟨hc, _, _, _⟩ <;> rw [hc] <;> omega
    have hids1 : ∀ id ∈ issuedIds (step op m).events,
        m.gstreamerIdGenerate < id ∧ id ≤ (step op m).mem.gstreamerIdGenerate := by
      intro id hid
      rcases hreg with ⟨_, hev, _⟩ | ⟨hc, hev, _, h1⟩
      · rw [hev] at hid
        cases hid
      · rw [hev] at hid
        simp only [List.mem_singleton] at hid
        rw [hc, hid, h1]
        omega
    have hpw1 : List.Pairwise (fun a b : Int => a < b) (issuedIds (step op m).events) := by
      rcases hreg with ⟨_, hev, _⟩ | ⟨_, hev, _, _⟩ <;> rw [hev] <;> simp
    have hgone1 : ∀ pid : Int, pid ≤ m.gstreamerIdGenerate → pid ∉ mapKeys m.pipelines →
        pid ∉ mapKeys (step op m).mem.pipelines := by
      intro pid hpid hk hk'
      rcases hreg with ⟨_, _, hsub⟩ | ⟨_, _, hsub, _⟩
      · exact hk (hsub pid hk')
      · rcases hsub pid hk' with heq | hmem
        · omega
        · exact hk hmem
    obtain ⟨ihinv, ihlo, ihhi, ihids, ihpw, ihgone⟩ :=
      ih (step op m).mem hinv1 (by omega) (by omega)
    simp only [run]
    split
    · dsimp only
      refine ⟨ihinv, by omega, by omega, ?_, ?_, ?_⟩
      · intro id hid
        rw [issuedIds_append] at hid
        rcases List.mem_append.mp hid with hid | hid
        · have := hids1 id hid
          omega
        · have := ihids id hid
          omega
      · rw [issuedIds_append, List.pairwise_append]
        refine ⟨hpw1, ihpw, ?_⟩
        intro a ha b hb
        have := hids1 a ha
        have := ihids b hb
        omega
      · intro pid hpid hk
        exact ihgone pid (by omega) (hgone1 pid hpid hk)
    · exact ⟨hinv1, hc1.1, by omega, hids1, hpw1, hgone1⟩

/-- C3. Ids come from one strictly increasing counter shared by pipelines and elements.
For every sequence of operations from the initial state (counter 10000, both maps empty)
in which the counter cannot overflow the 64-bit `int` (10000 plus the number of
registrations asked for stays below 2^63): the ids handed out by `New` and `FindElement`,
in the order they were handed out, are strictly increasing (so none is ever handed out
twice, also after its object was deregistered), each lies above 10000 and is at most the
counter, every key of both maps is at most the counter, and no id is a key of both
maps. -/
theorem ids_strictly_increasing (ops : List Op)
    (h : 10000 + (registrations ops : Int) < 9223372036854775808) :
    List.Pairwise (fun a b => a < b) (issuedIds (run init ops).events) ∧
    (∀ id ∈ issuedIds (run init ops).events,
      10000 < id ∧ id ≤ (run init ops).mem.gstreamerIdGenerate) ∧
    (∀ k ∈ mapKeys (run init ops).mem.pipelines, k ≤ (run init ops).mem.gstreamerIdGenerate) ∧
    (∀ k ∈ mapKeys (run init ops).mem.elements, k ≤ (run init ops).mem.gstreamerIdGenerate) ∧
    (∀ k ∈ mapKeys (run init ops).mem.pipelines, k ∉ mapKeys (run init ops).mem.elements) := by
  obtain ⟨hinv, _, _, hids, hpw, _⟩ :=
    run_registry ops init IdInv_init (by simp [init]) (by simpa [init] using h)
  exact ⟨hpw, hids, hinv.1, hinv.2.1, hinv.2.2.1⟩

/-- C3 on a run that registers, deregisters and registers again: the ids handed out are
10001, 10002, 10003. -/
theorem ids_strictly_increasing_witness :
    issuedIds (run init [.New (some 1), .FindElement 0 (some 2), .PipelineStop 0,
      .New (some 3)]).events = [10001, 10002, 10003] ∧
    List.Pairwise (fun a b => a < b)
      (issuedIds (run init [.New (some 1), .FindElement 0 (some 2), .PipelineStop 0,
        .New (some 3)]).events) :=
  ⟨by decide, (ids_strictly_increasing [.New (some 1), .FindElement 0 (some 2), .PipelineStop 0,
    .New (some 3)] (by decide)).1⟩

theorem Pipeline_Stop_registry (p : Nat) (m : Mem) (obj : Pipeline)
    (hp : m.pipelineObjs[p]? = some obj) :
    (Pipeline.Stop p m).mem.pipelines = mapDelete m.pipelines obj.id ∧
    (Pipeline.Stop p m).mem.gstreamerIdGenerate = m.gstreamerIdGenerate := by
  simp only [Pipeline.Stop, hp]
  split
  · exact ⟨rfl, rfl⟩
  · split
    · exact ⟨rfl, rfl⟩
    · split
      · exact ⟨rfl, rfl⟩
      · exact ⟨rfl, rfl⟩

/-- C9, as stated, fails: `Element.Stop` on a polled element reads and sets the flag and
closes `out`, and `Pipeline.Stop` on a subscribed pipeline closes `messages`, after the
registry lock has been released. -/
theorem teardown_outside_lock :
    lockDiscipline false
      (Element.Stop 0 (run init [.New (some 1), .FindElement 0 (some 2), .Poll 0]).mem).events
      = false ∧
    (Element.Stop 0 (run init [.New (some 1), .FindElement 0 (some 2), .Poll 0]).mem).events =
      [.lock, .deleteElement 10002, .unlock, .readStop 0, .writeStop 0, .close (.out 0)] ∧
    lockDiscipline false
      (Pipeline.Stop 0 (run init [.New (some 1), .PullMessage 0]).mem).events = false ∧
    (Pipeline.Stop 0 (run init [.New (some 1), .PullMessage 0]).mem).events =
      [.lock, .deletePipeline 10001, .unlock, .close (.messages 0),
        .native (.gstreamer_pipeline_stop 1), .native (.gstreamer_pipeline_unref 1)] := by
  decide

theorem Element_Stop_registry (e : Nat) (m : Mem) (obj : Element)
    (he : m.elementObjs[e]? = some obj) :
    (Element.Stop e m).mem.elements = mapDelete m.elements obj.id := by
  simp only [Element.Stop, he]
  split
  · rfl
  · split
    · rfl
    · split
      · rfl
      · split <;> rfl

/-- C9, amended. `goHandleSinkEOS` works under the registry lock: on a registered, polled,
not stopped element it reads the flag, sets it and closes the queue between lock and
unlock. `Element.Stop` and `Pipeline.Stop` hold the lock only around the removal of the
object's id from its map, after which a lookup of the id fails. `Element.Stop` reads the
flag right after the unlock; if the element is stopped or was never polled it does nothing
more; if it is polled and not stopped it sets the flag and closes `out` (flag set and
queue closed in the memory it leaves). `Pipeline.Stop` closes `messages` after the unlock
exactly when the pipeline has such a queue (closed in the memory it leaves). Neither takes
the lock again. -/
theorem teardown_lock_scope (m : Mem) :
    (∀ id : Int, lockDiscipline false (goHandleSinkEOS id m).events = true) ∧
    (∀ (id : Int) (e c : Nat) (obj : Element), mapGet m.elements id = some e →
      m.elementObjs[e]? = some obj → obj.out = some c → obj.stop = false →
      (goHandleSinkEOS id m).events =
        [.lock, .readStop e, .writeStop e, .close (.out c), .unlock]) ∧
    (∀ (e : Nat) (obj : Element), m.elementObjs[e]? = some obj →
      mapGet (Element.Stop e m).mem.elements obj.id = none ∧
      (∃ rest : List Ev,
        (Element.Stop e m).events =
          [.lock, .deleteElement obj.id, .unlock, .readStop e] ++ rest ∧
        (rest = [] ∨ ∃ c : Nat, obj.out = some c ∧ obj.stop = false ∧
          rest = [.writeStop e, .close (.out c)]) ∧
        (obj.stop = true ∨ obj.out = none → rest = []) ∧
        (∀ c : Nat, obj.out = some c → obj.stop = false →
          rest = [.writeStop e, .close (.out c)])) ∧
      (∀ (c : Nat) (ch : Chan Bytes), obj.out = some c → obj.stop = false →
        m.bufChans[c]? = some ch →
        (Element.Stop e m).mem.elementObjs[e]? = some { obj with stop := true } ∧
        (Element.Stop e m).mem.bufChans[c]? = some { ch with closed := true })) ∧
    (∀ (p : Nat) (obj : Pipeline), m.pipelineObjs[p]? = some obj →
      mapGet (Pipeline.Stop p m).mem.pipelines obj.id = none ∧
      (∃ rest : List Ev,
        (Pipeline.Stop p m).events = [.lock, .deletePipeline obj.id, .unlock] ++ rest ∧
        Ev.lock ∉ rest ∧
        (∀ q : Queue, Ev.close q ∈ rest ↔ ∃ c : Nat, obj.messages = some c ∧ q = .messages c)) ∧
      (∀ (c : Nat) (ch : Chan Message), obj.messages = some c → m.msgChans[c]? = some ch →
        (Pipeline.Stop p m).mem.msgChans[c]? = some { ch with closed := true })) := by
  refine ⟨?_, ?_, ?_, ?_⟩
  · intro id
    unfold goHandleSinkEOS
    split
    · rfl
    · split
      · rfl
      · split
        · rfl
        · split
          · rfl
          · dsimp only
            split
            · rfl
            · split <;> rfl
  · intro id e c obj hreg he hout hstop
    simp only [goHandleSinkEOS, hreg, he, hout, hstop, Bool.false_eq_true, if_false]
    split
    · rfl
    · split <;> rfl
  · intro e obj he
    refine ⟨by rw [Element_Stop_registry e m obj he, mapGet_mapDelete]; simp, ?_, ?_⟩
    · simp only [Element.Stop, he]
      split
      · rename_i hstop
        exact ⟨[], rfl, Or.inl rfl, fun _ => rfl, fun c _ hs => by rw [hstop] at hs; cases hs⟩
      · rename_i hstop
        split
        · rename_i hnone
          exact ⟨[], rfl, Or.inl rfl, fun _ => rfl, fun c hc _ => by rw [hnone] at hc; cases hc⟩
        · rename_i c hc
          refine ⟨[.writeStop e, .close (.out c)], ?_,
            Or.inr ⟨c, hc, by simpa using hstop, rfl⟩, ?_, ?_⟩
          · repeat' split
            all_goals rfl
          · rintro (h | h)
            · exact absurd h hstop
            · rw [hc] at h
              cases h
          · intro c' hc' _
            rw [hc] at hc'
            cases hc'
            rfl
    · intro c ch hout hstop hch
      cases hcl : ch.closed with
      | true =>
        have hclose : ch.close = none := by simp [Chan.close, hcl]
        have hsame : ({ ch with closed := true } : Chan Bytes) = ch := by
          cases ch
          simp only [Chan.mk.injEq, true_and] at *
          exact hcl.symm
        simp only [Element.Stop, he, hout, hstop, hch, hclose, Bool.false_eq_true, if_false,
          hsame]
        exact ⟨getElem?_set_self_of_some he, trivial⟩
      | false =>
        have hclose : ch.close = some { ch with closed := true } := by simp [Chan.close, hcl]
        simp only [Element.Stop, he, hout, hstop, hch, hclose, Bool.false_eq_true, if_false]
        exact ⟨getElem?_set_self_of_some he, getElem?_set_self_of_some hch⟩
  · intro p obj hp
    refine ⟨by rw [(Pipeline_Stop_registry p m obj hp).1, mapGet_mapDelete]; simp, ?_, ?_⟩
    · simp only [Pipeline.Stop, hp]
      split
      · rename_i hnone
        refine ⟨_, rfl, by simp, ?_⟩
        intro q
        simp [hnone]
      · rename_i c hc
        split
        · refine ⟨_, rfl, by simp, ?_⟩
          intro q
          cases q <;> simp [hc, eq_comm]
        · split
          · refine ⟨_, rfl, by simp, ?_⟩
            intro q
            cases q <;> simp [hc, eq_comm]
          · refine ⟨_, rfl, by simp, ?_⟩
            intro q
            cases q <;> simp [hc, eq_comm]
    · intro c ch hmsg hch
      cases hcl : ch.closed with
      | true =>
        have hclose : ch.close = none := by simp [Chan.close, hcl]
        have hsame : ({ ch with closed := true } : Chan Message) = ch := by
          cases ch
          simp only [Chan.mk.injEq, true_and] at *
          exact hcl.symm
        simp only [Pipeline.Stop, hp, hmsg, hch, hclose, hsame]
      | false =>
        have hclose : ch.close = some { ch with closed := true } := by simp [Chan.close, hcl]
        simp only [Pipeline.Stop, hp, hmsg, hch, hclose]
        exact getElem?_set_self_of_some hch

/-! ## Teardown and subscription of a pipeline -/

/-- C1 fails on the code. After `New` and `PullMessage`, the second `Stop` of the
pipeline closes the `messages` queue a second time: the run ends in the panic
"close of closed channel" with two closes of queue 0 in its trace. -/
theorem Pipeline_Stop_twice_closes_twice :
    (run init [.New (some 1), .PullMessage 0, .PipelineStop 0, .PipelineStop 0]).status =
      .panicked .closeOfClosedChannel ∧
    List.count (Ev.close (.messages 0))
      (run init [.New (some 1), .PullMessage 0, .PipelineStop 0, .PipelineStop 0]).events = 2 := by
  decide

/-- C5 fails on the code. The second `PullMessage` makes a second queue and returns it
(queue 1, not queue 0), watches the bus a second time, and a message dispatched
afterwards for the pipeline's id lands in the second queue while the first stays
empty. -/
theorem PullMessage_twice_makes_second_queue :
    (Pipeline.PullMessage 0 (run init [.New (some 1)]).mem).status = .returned 0 ∧
    (Pipeline.PullMessage 0
      (Pipeline.PullMessage 0 (run init [.New (some 1)]).mem).mem).status = .returned 1 ∧
    (Pipeline.PullMessage 0
      (Pipeline.PullMessage 0 (run init [.New (some 1)]).mem).mem).events =
      [.native (.gstreamer_pipeline_but_watch 1 10001)] ∧
    (run init [.New (some 1), .PullMessage 0, .PullMessage 0,
      .goHandleBusMessage 7 10001]).mem.msgChans =
      [{ cap := 5, buf := [], closed := false },
        { cap := 5, buf := [{ GstMessage := 7 }], closed := false }] := by
  decide

/-! ## No send after a close in the trace -/

theorem closedAt_messages_step (op : Op) (m : Mem) (c : Nat) (h : closedAt m.msgChans c) :
    closedAt (step op m).mem.msgChans c := by
  cases op with
  | New cpipeline =>
    simp only [step, Outcome.void_mem, New]
    split <;> exact h
  | PullMessage p =>
    simp only [step, Outcome.void_mem, Pipeline.PullMessage]
    split
    · exact h
    · exact closedAt_append _ h
  | FindElement p g =>
    simp only [step, Outcome.void_mem, Pipeline.FindElement]
    split
    · exact h
    · split <;> exact h
  | Poll e =>
    simp only [step, Outcome.void_mem, Element.Poll]
    split
    · exact h
    · split <;> exact h
  | PipelineStop p =>
    simp only [step, Pipeline.Stop]
    split
    · exact h
    · split
      · exact h
      · split
        · exact h
        · rename_i ch hch
          split
          · exact h
          · rename_i ch' hcl
            exact closedAt_set h hch (fun _ => by rw [(Chan.close_some hcl).2])
  | ElementStop e =>
    simp only [step, Element.Stop]
    split
    · exact h
    · split
      · exact h
      · split
        · exact h
        · split
          · exact h
          · split <;> exact h
  | goHandleSinkBuffer b id =>
    simp only [step, goHandleSinkBuffer]
    split
    · exact h
    · split
      · exact h
      · split
        · exact h
        · split
          · exact h
          · split
            · exact h
            · split <;> exact h
  | goHandleSinkEOS id =>
    simp only [step, goHandleSinkEOS]
    split
    · exact h
    · split
      · exact h
      · split
        · exact h
        · split
          · exact h
          · split
            · exact h
            · split <;> exact h
  | goHandleBusMessage msg id =>
    simp only [step, goHandleBusMessage]
    split
    · exact h
    · split
      · exact h
      · split
        · exact h
        · split
          · exact h
          · rename_i ch hch
            split
            · exact h
            · exact h
            · rename_i ch' hs
              exact closedAt_set h hch (fun hcl => by rw [(Chan.send_sent hs).2.2]; exact hcl)
  | recvOut c' =>
    simp only [step]
    split <;> exact h
  | recvMessages c' =>
    simp only [step]
    split
    · rename_i chans hr
      exact closedAt_hostRecv h hr
    · exact h

theorem queueClosed_step (op : Op) (m : Mem) (q : Queue) (h : queueClosed m q) :
    queueClosed (step op m).mem q := by
  cases q with
  | messages c => exact closedAt_messages_step op m c h
  | out c => exact closedAt_out_step op m c h

theorem StepTrace.quiet {m m' : Mem} {evs : List Ev}
    (h : ∀ (closed : List Queue) (rest : List Ev),
      sendsOnlyOpen closed (evs ++ rest) = sendsOnlyOpen closed rest) : StepTrace m m' evs :=
  Or.inl h

theorem stepTrace_PipelineStop (p : Nat) (m : Mem) (hinv : Inv m) :
    StepTrace m (Pipeline.Stop p m).mem (Pipeline.Stop p m).events := by
  unfold Pipeline.Stop
  split
  · exact StepTrace.quiet (fun _ _ => rfl)
  · rename_i obj hp
    dsimp only
    split
    · exact StepTrace.quiet (fun _ _ => rfl)
    · rename_i c hc
      have hlt := hinv.2.2.1 p obj c hp hc
      split
      · rename_i hnone
        rw [List.getElem?_eq_none_iff] at hnone
        omega
      · rename_i ch hch
        split
        · rename_i hcl
          exact Or.inr (Or.inl ⟨.messages c, ⟨ch, hch, Chan.close_none hcl⟩, fun _ _ => rfl⟩)
        · rename_i ch' hcl
          refine Or.inr (Or.inl ⟨.messages c, ⟨ch', getElem?_set_self_of_some hch, ?_⟩,
            fun _ _ => rfl⟩)
          rw [(Chan.close_some hcl).2]

theorem stepTrace_ElementStop (e : Nat) (m : Mem) (hinv : Inv m) :
    StepTrace m (Element.Stop e m).mem (Element.Stop e m).events := by
  unfold Element.Stop
  split
  · exact StepTrace.quiet (fun _ _ => rfl)
  · rename_i obj he
    dsimp only
    split
    · exact StepTrace.quiet (fun _ _ => rfl)
    · split
      · exact StepTrace.quiet (fun _ _ => rfl)
      · rename_i c hc
        obtain ⟨ch, hch, _⟩ := (hinv.1.1 e obj he).2 c hc
        simp only [hch]
        split
        · rename_i hcl
          exact Or.inr (Or.inl ⟨.out c, ⟨ch, hch, Chan.close_none hcl⟩, fun _ _ => rfl⟩)
        · rename_i ch' hcl
          refine Or.inr (Or.inl ⟨.out c, ⟨ch', getElem?_set_self_of_some hch, ?_⟩,
            fun _ _ => rfl⟩)
          rw [(Chan.close_some hcl).2]

theorem stepTrace_goHandleSinkEOS (id : Int) (m : Mem) (hinv : Inv m) :
    StepTrace m (goHandleSinkEOS id m).mem (goHandleSinkEOS id m).events := by
  unfold goHandleSinkEOS
  split
  · exact StepTrace.quiet (fun _ _ => rfl)
  · rename_i e _
    split
    · exact StepTrace.quiet (fun _ _ => rfl)
    · rename_i obj he
      split
      · exact StepTrace.quiet (fun _ _ => rfl)
      · rename_i c hc
        split
        · exact StepTrace.quiet (fun _ _ => rfl)
        · obtain ⟨ch, hch, _⟩ := (hinv.1.1 e obj he).2 c hc
          simp only [hch]
          split
          · rename_i hcl
            exact Or.inr (Or.inl ⟨.out c, ⟨ch, hch, Chan.close_none hcl⟩, fun _ _ => rfl⟩)
          · rename_i ch' hcl
            refine Or.inr (Or.inl ⟨.out c, ⟨ch', getElem?_set_self_of_some hch, ?_⟩,
              fun _ _ => rfl⟩)
            rw [(Chan.close_some hcl).2]

theorem stepTrace_goHandleSinkBuffer (b : Bytes) (id : Int) (m : Mem) :
    StepTrace m (goHandleSinkBuffer b id m).mem (goHandleSinkBuffer b id m).events := by
  unfold goHandleSinkBuffer
  split
  · exact StepTrace.quiet (fun _ _ => rfl)
  · split
    · exact StepTrace.quiet (fun _ _ => rfl)
    · split
      · exact StepTrace.quiet (fun _ _ => rfl)
      · rename_i c hc
        split
        · exact StepTrace.quiet (fun _ _ => rfl)
        · split
          · exact StepTrace.quiet (fun _ _ => rfl)
          · rename_i ch hch
            split
            · exact StepTrace.quiet (fun _ _ => rfl)
            · exact StepTrace.quiet (fun _ _ => rfl)
            · rename_i ch' hs
              refine Or.inr (Or.inr ⟨.out c, ?_, fun _ _ => rfl⟩)
              rintro ⟨ch0, hch0, hcl0⟩
              rw [hch] at hch0
              cases hch0
              rw [(Chan.send_sent hs).1] at hcl0
              cases hcl0

theorem stepTrace_goHandleBusMessage (msg : Handle) (id : Int) (m : Mem) :
    StepTrace m (goHandleBusMessage msg id m).mem (goHandleBusMessage msg id m).events := by
  unfold goHandleBusMessage
  dsimp only
  split
  · exact StepTrace.quiet (fun _ _ => rfl)
  · split
    · exact StepTrace.quiet (fun _ _ => rfl)
    · split
      · exact StepTrace.quiet (fun _ _ => rfl)
      · rename_i c hc
        split
        · exact StepTrace.quiet (fun _ _ => rfl)
        · rename_i ch hch
          split
          · exact StepTrace.quiet (fun _ _ => rfl)
          · exact StepTrace.quiet (fun _ _ => rfl)
          · rename_i ch' hs
            refine Or.inr (Or.inr ⟨.messages c, ?_, fun _ _ => rfl⟩)
            rintro ⟨ch0, hch0, hcl0⟩
            rw [hch] at hch0
            cases hch0
            rw [(Chan.send_sent hs).1] at hcl0
            cases hcl0

theorem stepTrace_step (op : Op) (m : Mem) (hinv : Inv m) :
    StepTrace m (step op m).mem (step op m).events := by
  cases op with
  | New cpipeline =>
    simp only [step, Outcome.void_mem, Outcome.void_events, New]
    split <;> exact StepTrace.quiet (fun _ _ => rfl)
  | PullMessage p =>
    simp only [step, Outcome.void_mem, Outcome.void_events, Pipeline.PullMessage]
    split <;> exact StepTrace.quiet (fun _ _ => rfl)
  | FindElement p g =>
    simp only [step, Outcome.void_mem, Outcome.void_events, Pipeline.FindElement]
    split
    · exact StepTrace.quiet (fun _ _ => rfl)
    · split <;> exact StepTrace.quiet (fun _ _ => rfl)
  | Poll e =>
    simp only [step, Outcome.void_mem, Outcome.void_events, Element.Poll]
    split
    · exact StepTrace.quiet (fun _ _ => rfl)
    · split <;> exact StepTrace.quiet (fun _ _ => rfl)
  | PipelineStop p => exact stepTrace_PipelineStop p m hinv
  | ElementStop e => exact stepTrace_ElementStop e m hinv
  | goHandleSinkBuffer b id => exact stepTrace_goHandleSinkBuffer b id m
  | goHandleSinkEOS id => exact stepTrace_goHandleSinkEOS id m hinv
  | goHandleBusMessage msg id => exact stepTrace_goHandleBusMessage msg id m
  | recvOut c =>
    simp only [step]
    split <;> exact StepTrace.quiet (fun _ _ => rfl)
  | recvMessages c =>
    simp only [step]
    split <;> exact StepTrace.quiet (fun _ _ => rfl)

theorem sendsOnlyOpen_step (op : Op) (m : Mem) (hinv : Inv m) (closed : List Queue)
    (hcl : ∀ q ∈ closed, queueClosed m q) (rest : List Ev) :
    ∃ closed' : List Queue, (∀ q ∈ closed', queueClosed (step op m).mem q) ∧
      sendsOnlyOpen closed ((step op m).events ++ rest) = sendsOnlyOpen closed' rest := by
  have hmono : ∀ q ∈ closed, queueClosed (step op m).mem q :=
    fun q hq => queueClosed_step op m q (hcl q hq)
  rcases stepTrace_step op m hinv with h | ⟨q, hq, h⟩ | ⟨q, hq, h⟩
  · exact ⟨closed, hmono, h closed rest⟩
  · refine ⟨q :: closed, ?_, h closed rest⟩
    intro q' hq'
    rcases List.mem_cons.mp hq' with rfl | hq'
    · exact hq
    · exact hmono q' hq'
  · refine ⟨closed, hmono, ?_⟩
    rw [h closed rest]
    have : q ∉ closed := fun hmem => hq (hcl q hmem)
    simp [this]

theorem sendsOnlyOpen_run (ops : List Op) :
    ∀ (m : Mem) (closed : List Queue), Inv m → (∀ q ∈ closed, queueClosed m q) →
      sendsOnlyOpen closed (run m ops).events = true := by
  induction ops with
  | nil => intro m closed _ _; rfl
  | cons op rest ih =>
    intro m closed hinv hcl
    simp only [run]
    split
    · dsimp only
      obtain ⟨closed', hcl', heq⟩ := sendsOnlyOpen_step op m hinv closed hcl (run (step op m).mem rest).events
      rw [heq]
      exact ih _ closed' (Inv_step op m hinv) hcl'
    · obtain ⟨closed', _, heq⟩ := sendsOnlyOpen_step op m hinv closed hcl []
      rw [List.append_nil] at heq
      rw [heq]
      rfl

/-- C10. No write after close. For every sequence of operations from the initial state:
in the trace of the run no send on a queue comes after a close of that queue, and the run
never panics with a send on a closed channel; in the state it leaves, neither
`goHandleSinkBuffer` nor `goHandleBusMessage` sends on a closed channel and both leave
every closed queue as it is; and once `Element.Stop` or `goHandleSinkEOS` has run on a
polled element, its queue is closed and, after any further operations, every
`goHandleSinkBuffer` leaves that queue unchanged. -/
theorem no_write_after_close (ops : List Op) :
    sendsOnlyOpen [] (run init ops).events = true ∧
    (run init ops).status ≠ .panicked .sendOnClosedChannel ∧
    (∀ (b : Bytes) (id : Int),
      (goHandleSinkBuffer b id (run init ops).mem).status ≠ .panicked .sendOnClosedChannel ∧
      ∀ (c : Nat) (ch : Chan Bytes), (run init ops).mem.bufChans[c]? = some ch →
        ch.closed = true →
        (goHandleSinkBuffer b id (run init ops).mem).mem.bufChans[c]? = some ch) ∧
    (∀ (msg : Handle) (id : Int),
      (goHandleBusMessage msg id (run init ops).mem).status ≠ .panicked .sendOnClosedChannel ∧
      ∀ (c : Nat) (ch : Chan Message), (run init ops).mem.msgChans[c]? = some ch →
        ch.closed = true →
        (goHandleBusMessage msg id (run init ops).mem).mem.msgChans[c]? = some ch) ∧
    (∀ (e c : Nat) (obj : Element), (run init ops).mem.elementObjs[e]? = some obj →
      obj.out = some c →
      closedAt (Element.Stop e (run init ops).mem).mem.bufChans c ∧
      ∀ (ops2 : List Op) (b : Bytes) (id : Int),
        (goHandleSinkBuffer b id
          (run (Element.Stop e (run init ops).mem).mem ops2).mem).mem.bufChans[c]? =
        (run (Element.Stop e (run init ops).mem).mem ops2).mem.bufChans[c]?) ∧
    (∀ (e c : Nat) (obj : Element), mapGet (run init ops).mem.elements obj.id = some e →
      (run init ops).mem.elementObjs[e]? = some obj → obj.out = some c →
      closedAt (goHandleSinkEOS obj.id (run init ops).mem).mem.bufChans c ∧
      ∀ (ops2 : List Op) (b : Bytes) (id : Int),
        (goHandleSinkBuffer b id
          (run (goHandleSinkEOS obj.id (run init ops).mem).mem ops2).mem).mem.bufChans[c]? =
        (run (goHandleSinkEOS obj.id (run init ops).mem).mem ops2).mem.bufChans[c]?) := by
  have hinv := Inv_run ops init Inv_init
  refine ⟨sendsOnlyOpen_run ops init [] Inv_init (fun q hq => by cases hq),
    run_no_send_on_closed ops init Inv_init,
    fun b id => goHandleSinkBuffer_closed b id _ hinv,
    fun msg id => goHandleBusMessage_closed msg id _ hinv, ?_, ?_⟩
  · intro e c obj he hout
    have hc := Element_Stop_closes _ hinv e c obj he hout
    exact ⟨hc, buffer_after_close _ (Inv_ElementStop e _ hinv) c hc⟩
  · intro e c obj hreg he hout
    have hc := goHandleSinkEOS_closes _ hinv obj.id e c obj hreg he hout
    exact ⟨hc, buffer_after_close _ (Inv_goHandleSinkEOS obj.id _ hinv) c hc⟩

/-! ## Ids beyond the range of `C.int` -/

end Gstreamer
